import Mathlib

/-! # Branch-office service: data model, persistence, orchestration, transport

A shallow embedding of the Go packages `models`, `dto`, `repos`, `services`,
`validators` and `controllers`.  The relational table behind `db.DB` is a list of
rows; every repository method is a function from the table (and, for writes, to
a new table).  The query builder is embedded through the SQL each call chain
issues: `Where("id = ?", id)` is a filter, `First` is `ORDER BY id LIMIT 1`,
the soft-delete scope is the condition `deleted_at IS NULL`, which `Unscoped`
removes.  Column width limits of the table are not part of the model.
-/

namespace TwinBranchOffice

/-! ## Go values -/

/-- Instants of `time.Time`, kept as Unix seconds. -/
structure Time where
  unix : Int
  deriving DecidableEq, Repr

namespace Time

/-- The zero value of `time.Time` (January 1, year 1, UTC). -/
def zero : Time := ⟨-62135596800⟩

/-- Go `t.IsZero()`. -/
def IsZero (t : Time) : Bool := t == zero

/-- Go `t.Unix()`. -/
def Unix (t : Time) : Int := t.unix

end Time

/-- Go `error` values that occur in the service.  `wrapped` is an error that wraps
another one, as `fmt.Errorf("...%w", inner)` builds. -/
inductive GoError where
  | ErrRecordNotFound
  | ErrMissingWhereClause
  | DBValidationError (Field : String) (Tag : String)
  | ValidationErrors (failed : List String)
  | other (msg : String)
  | wrapped (msg : String) (inner : GoError)
  deriving DecidableEq, Repr

/-- Go `errors.Is(err, gorm.ErrRecordNotFound)`: the error or one it wraps is
`ErrRecordNotFound`. -/
def GoError.isRecordNotFound : GoError → Bool
  | .ErrRecordNotFound => true
  | .wrapped _ inner => inner.isRecordNotFound
  | _ => false

/-! ## Package `dto` -/

namespace dto

structure BranchOfficeResource where
  Id : String
  Name : String
  Address : String
  PhoneNumber : String
  FaxNumber : String
  City : String
  CreatedAt : Int
  deriving DecidableEq, Repr

structure GetBranchOfficeRequest where
  Fields : Option (List String)
  Keyword : Option String
  Limit : Option Int
  Page : Option Int
  Status : Option String
  deriving DecidableEq, Repr

structure CreateBranchOfficeRequest where
  Id : String
  Name : String
  Address : String
  PhoneNumber : String
  City : String
  FaxNumber : String
  deriving DecidableEq, Repr

structure UpdateBranchOfficeRequest where
  Name : Option String
  Address : Option String
  PhoneNumber : Option String
  City : Option String
  FaxNumber : Option String
  deriving DecidableEq, Repr

end dto

/-! ## Package `models` -/

namespace models

/-- One row of the table.  `DeletedAt` is `gorm.DeletedAt`: `none` is SQL NULL. -/
structure BranchOffice where
  Id : String
  Name : String
  Address : String
  PhoneNumber : String
  FaxNumber : String
  City : String
  CreatedAt : Time
  DeletedAt : Option Time
  deriving DecidableEq, Repr

/-- The zero value `models.BranchOffice{}`. -/
def BranchOffice.empty : BranchOffice :=
  { Id := "", Name := "", Address := "", PhoneNumber := "", FaxNumber := "", City := "",
    CreatedAt := Time.zero, DeletedAt := none }

def BranchOffice.ToDtoResponse (m : BranchOffice) : dto.BranchOfficeResource :=
  { Id := m.Id, Name := m.Name, Address := m.Address, PhoneNumber := m.PhoneNumber,
    FaxNumber := m.FaxNumber, City := m.City, CreatedAt := m.CreatedAt.Unix }

end models

open models (BranchOffice)

/-- The table `branch_offices`. -/
abbrev Table := List BranchOffice

/-- The primary-key constraint of the table: no two rows share an `id`. -/
def Table.wf (t : Table) : Prop := (t.map (fun r => r.Id)).Nodup

instance (t : Table) : Decidable t.wf := by unfold Table.wf; infer_instance

/-! ## The query builder, through the SQL it issues -/

namespace gorm

/-- The soft-delete scope: a statement sees a row when it is `Unscoped` or the row's
`deleted_at` is NULL. -/
def visible (unscoped : Bool) (r : BranchOffice) : Bool := unscoped || r.DeletedAt.isNone

/-- Lexicographic order on character sequences by code point. -/
def charsLt : List Char → List Char → Bool
  | _, [] => false
  | [], _ :: _ => true
  | a :: as, b :: bs => decide (a.toNat < b.toNat) || (a == b && charsLt as bs)

/-- The order the database sorts text by (`ORDER BY`), taken as code-point order. -/
def textLt (a b : String) : Bool := charsLt a.toList b.toList

/-- The row with the least primary key: `ORDER BY id LIMIT 1`. -/
def leastId : List BranchOffice → Option BranchOffice
  | [] => none
  | r :: rs =>
    match leastId rs with
    | none => some r
    | some m => if textLt m.Id r.Id then some m else some r

/-- Finisher `First(&dest)` on the selected rows: the first row by primary key, or
`ErrRecordNotFound`. -/
def First (rows : List BranchOffice) : Option BranchOffice × Option GoError :=
  match leastId rows with
  | some r => (some r, none)
  | none => (none, some GoError.ErrRecordNotFound)

/-- The text columns of the table by their SQL names; any other name in
`fmt.Sprintf("%s = ?", field)` or `"%s ILIKE ?"` makes the statement fail. -/
def column (field : String) : Option (BranchOffice → String) :=
  if field = "id" then some (fun r => r.Id)
  else if field = "name" then some (fun r => r.Name)
  else if field = "address" then some (fun r => r.Address)
  else if field = "phone_number" then some (fun r => r.PhoneNumber)
  else if field = "fax_number" then some (fun r => r.FaxNumber)
  else if field = "city" then some (fun r => r.City)
  else none

/-- The error of a statement that names an unknown column. -/
def undefinedColumn (field : String) : GoError := GoError.other ("undefined column: " ++ field)

/-- The error of an insert or update that would repeat a primary key. -/
def duplicateKey : GoError := GoError.other "duplicate key value violates unique constraint"

/-- Some suffix of the text satisfies `f` (what a leading `%` of a pattern allows). -/
def likeAny (f : List Char → Bool) : List Char → Bool
  | [] => f []
  | c :: s => f (c :: s) || likeAny f s

/-- SQL `LIKE`: `%` stands for any run of characters, `_` for one character, and a
backslash takes the next pattern character literally. -/
def likeMatch : List Char → List Char → Bool
  | [], s => s.isEmpty
  | c :: p, s =>
    if c = Char.ofNat 37 then likeAny (likeMatch p) s
    else if c = Char.ofNat 95 then
      match s with
      | [] => false
      | _ :: s1 => likeMatch p s1
    else if c = Char.ofNat 92 then
      match p, s with
      | e :: p1, d :: s1 => e == d && likeMatch p1 s1
      | _, _ => false
    else
      match s with
      | [] => false
      | d :: s1 => c == d && likeMatch p s1

/-- SQL `value ILIKE pattern`: `LIKE` on the lower-cased text. -/
def ilike (value pattern : String) : Bool :=
  likeMatch (pattern.toList.map Char.toLower) (value.toList.map Char.toLower)

end gorm

/-! ## Collaborators of the `twin-util` module -/

namespace constant

/-- Modelled from the spec: the constant `constant.StatusDeleted` of the `twin-util`
module is not in the sources; the spec gives its value (`status == "deleted"`). -/
def StatusDeleted : String := "deleted"

end constant

namespace util

/-- Modelled from the spec: `util.Paginate` of the `twin-util` module is not in the
sources; the spec describes it as offset/limit pagination.  Page `page` of size
`limit` skips `(page - 1) * limit` rows and keeps the next `limit`. -/
def Paginate (rows : List BranchOffice) (limit page : Int) : List BranchOffice :=
  (rows.drop ((page - 1) * limit).toNat).take limit.toNat

end util

/-! ## Package `repos` -/

namespace repos

structure GetBranchOfficeListFilter where
  Fields : Option (List String)
  Keyword : Option String
  Limit : Option Int
  Page : Option Int
  Status : Option String
  deriving DecidableEq, Repr

/-- The methods of `BranchOfficeRepoInterface` over a store of type `σ`.  A Go result
`(*T, error)` is a pair of options; a write also returns the store it leaves. -/
structure BranchOfficeRepoInterface (σ : Type) where
  GetBranchOfficeList : σ → GetBranchOfficeListFilter → List BranchOffice × Option GoError
  CreateBranchOffice : σ → BranchOffice → (Option BranchOffice × Option GoError) × σ
  UpdateBranchOfficeById : σ → String → BranchOffice → (Option BranchOffice × Option GoError) × σ
  SoftDeleteBranchOfficeById : σ → String → Option GoError × σ
  HardDeleteBranchOfficeById : σ → String → Option GoError × σ
  RestoreBranchOfficeById : σ → String → Option GoError × σ
  GetBranchOfficeById : σ → String → Bool → Option BranchOffice × Option GoError
  GetBranchOfficeByField : σ → String → String → Bool → Option BranchOffice × Option GoError
  GetBranchOfficeCount : σ → GetBranchOfficeListFilter → Int × Option GoError

/-- The keyword conditions of `GetBranchOfficeList` and `GetBranchOfficeCount`: present
when `Fields` and `Keyword` are non-nil and non-empty, and then one condition
`field ILIKE '%keyword%'` per listed field, in the order of `Fields`.  The empty list is
no condition; an unknown column is an error of the statement. -/
def keywordConditions (filter : GetBranchOfficeListFilter) :
    Except GoError (List (BranchOffice → Bool)) :=
  match filter.Fields, filter.Keyword with
  | some fields, some keyword =>
    if fields.length > 0 ∧ keyword ≠ "" then
      match fields.find? (fun f => (gorm.column f).isNone) with
      | some f => .error (gorm.undefinedColumn f)
      | none =>
        .ok (fields.map (fun f r =>
          match gorm.column f with
          | some col => gorm.ilike (col r) ("%" ++ keyword ++ "%")
          | none => false))
    else .ok []
  | _, _ => .ok []

/-- The trash clause of `GetBranchOfficeList` and `GetBranchOfficeCount`: status
`"deleted"` makes the statement `Unscoped` with `deleted_at is not null`; otherwise the
soft-delete scope `deleted_at IS NULL` stays. -/
def statusCondition (filter : GetBranchOfficeListFilter) (r : BranchOffice) : Bool :=
  match filter.Status with
  | some status => if status = constant.StatusDeleted then r.DeletedAt.isSome else r.DeletedAt.isNone
  | none => r.DeletedAt.isNone

/-- SQL `c1 OR c2 OR .. OR cn AND last`, read with the precedence of SQL: `AND` binds
tighter than `OR`, so only the final condition of the chain is joined with `last`. -/
def orChainAnd (conds : List (BranchOffice → Bool)) (last : Bool) (r : BranchOffice) : Bool :=
  match conds with
  | [] => last
  | c :: [] => c r && last
  | c :: c2 :: cs => c r || orChainAnd (c2 :: cs) last r

/-- The `WHERE` clause the statement is sent with.  The loop calls `res.Or(..)` on `res`
itself, so every field's condition becomes an `OR` condition of the statement, and
`res.Where(subQuery)` adds the same chain once more as a group.
* No keyword condition: the trash clause alone.
* One field: `c AND c AND <trash clause>`.
* Several fields under the soft-delete scope: the scope wraps what is there,
  `(c1 OR .. OR cn AND (c1 OR .. OR cn)) AND deleted_at IS NULL`.
* Several fields with status `"deleted"`: the statement is `Unscoped` and the clause is
  appended to the chain, `(c1 OR .. OR cn) OR c2 OR .. OR cn OR c1 AND deleted_at is not null`. -/
def whereClause (filter : GetBranchOfficeListFilter) (conds : List (BranchOffice → Bool))
    (r : BranchOffice) : Bool :=
  match conds with
  | [] => statusCondition filter r
  | c :: [] => c r && c r && statusCondition filter r
  | c :: c2 :: cs =>
    let group := (c :: c2 :: cs).any (fun k => k r)
    if filter.Status = some constant.StatusDeleted then
      group || orChainAnd (c2 :: cs ++ [c]) r.DeletedAt.isSome r
    else
      orChainAnd (c :: c2 :: cs) group r && r.DeletedAt.isNone

/-- The rows selected by the `WHERE` clause shared by list and count. -/
def selectRows (t : Table) (filter : GetBranchOfficeListFilter) : Except GoError (List BranchOffice) :=
  match keywordConditions filter with
  | .error e => .error e
  | .ok conds => .ok (t.filter (whereClause filter conds))

/-- Clause `Order("name ASC")`. -/
def orderByName (rows : List BranchOffice) : List BranchOffice :=
  rows.insertionSort (fun a b => gorm.textLt b.Name a.Name = false)

def GetBranchOfficeList (t : Table) (filter : GetBranchOfficeListFilter) :
    List BranchOffice × Option GoError :=
  match selectRows t filter with
  | .error e => ([], some e)
  | .ok rows =>
    let sorted := orderByName rows
    match filter.Limit, filter.Page with
    | some limit, some page => (util.Paginate sorted limit page, none)
    | _, _ => (sorted, none)

def GetBranchOfficeById (t : Table) (id : String) (withTrash : Bool) :
    Option BranchOffice × Option GoError :=
  gorm.First (t.filter (fun r => r.Id == id && gorm.visible withTrash r))

def GetBranchOfficeByField (t : Table) (field : String) (value : String) (withTrash : Bool) :
    Option BranchOffice × Option GoError :=
  match gorm.column field with
  | none => (none, some (gorm.undefinedColumn field))
  | some col => gorm.First (t.filter (fun r => col r == value && gorm.visible withTrash r))

/-- Finisher `db.DB.Create(&BranchOffice)`: the insert fails when the primary key is
taken; a zero `CreatedAt` is filled with the current time. -/
def CreateBranchOffice (now : Time) (t : Table) (b : BranchOffice) :
    (Option BranchOffice × Option GoError) × Table :=
  if t.any (fun r => r.Id == b.Id) then ((none, some gorm.duplicateKey), t)
  else
    let row := { b with CreatedAt := if b.CreatedAt.IsZero then now else b.CreatedAt }
    ((some row, none), t ++ [row])

/-- The assignments of `Updates(&BranchOffice)`: a struct updates only its non-zero
fields. -/
def assign (b r : BranchOffice) : BranchOffice :=
  { Id := if b.Id = "" then r.Id else b.Id
    Name := if b.Name = "" then r.Name else b.Name
    Address := if b.Address = "" then r.Address else b.Address
    PhoneNumber := if b.PhoneNumber = "" then r.PhoneNumber else b.PhoneNumber
    FaxNumber := if b.FaxNumber = "" then r.FaxNumber else b.FaxNumber
    City := if b.City = "" then r.City else b.City
    CreatedAt := if b.CreatedAt.IsZero then r.CreatedAt else b.CreatedAt
    DeletedAt := match b.DeletedAt with
      | some d => some d
      | none => r.DeletedAt }

/-- The chain `Model(..).Where("id = ?", id).Updates(&BranchOffice).First(&BranchOffice)`:
the update touches the rows with that id inside the soft-delete scope, and the read
that follows keeps the statement's conditions (and adds the primary key of
`BranchOffice` when it is non-zero). -/
def UpdateBranchOfficeById (t : Table) (id : String) (b : BranchOffice) :
    (Option BranchOffice × Option GoError) × Table :=
  let hit := fun (r : BranchOffice) => r.Id == id && r.DeletedAt.isNone
  if b.Id ≠ "" ∧ b.Id ≠ id ∧ t.any hit = true ∧ t.any (fun r => r.Id == b.Id) = true then
    ((none, some gorm.duplicateKey), t)
  else
    let t1 := t.map (fun r => if hit r then assign b r else r)
    (gorm.First (t1.filter (fun r => hit r && (b.Id == "" || r.Id == b.Id))), t1)

/-- Finisher `db.DB.Delete(&models.BranchOffice{Id: id})` on a model with a soft-delete
column: `UPDATE .. SET deleted_at = now WHERE id = ? AND deleted_at IS NULL`.  A zero
primary key adds no condition, and a delete without conditions is refused with
`ErrMissingWhereClause`. -/
def SoftDeleteBranchOfficeById (now : Time) (t : Table) (id : String) : Option GoError × Table :=
  if id = "" then (some GoError.ErrMissingWhereClause, t)
  else (none, t.map (fun r =>
    if r.Id == id && r.DeletedAt.isNone then { r with DeletedAt := some now } else r))

/-- Finisher `db.DB.Unscoped().Delete(&models.BranchOffice{Id: id})`:
`DELETE .. WHERE id = ?`, refused with `ErrMissingWhereClause` for a zero primary key. -/
def HardDeleteBranchOfficeById (t : Table) (id : String) : Option GoError × Table :=
  if id = "" then (some GoError.ErrMissingWhereClause, t)
  else (none, t.filter (fun r => r.Id != id))

/-- Chain `Model(..).Unscoped().Where("id = ?", id).Update("deleted_at", nil)`. -/
def RestoreBranchOfficeById (t : Table) (id : String) : Option GoError × Table :=
  (none, t.map (fun r => if r.Id == id then { r with DeletedAt := none } else r))

def GetBranchOfficeCount (t : Table) (filter : GetBranchOfficeListFilter) : Int × Option GoError :=
  match selectRows t filter with
  | .error e => (0, some e)
  | .ok rows => (rows.length, none)

/-- The repository `NewBranchOfficeRepo()` over the table, at clock reading `now`. -/
def branchOfficeRepo (now : Time) : BranchOfficeRepoInterface Table :=
  { GetBranchOfficeList := GetBranchOfficeList
    CreateBranchOffice := CreateBranchOffice now
    UpdateBranchOfficeById := UpdateBranchOfficeById
    SoftDeleteBranchOfficeById := SoftDeleteBranchOfficeById now
    HardDeleteBranchOfficeById := HardDeleteBranchOfficeById
    RestoreBranchOfficeById := RestoreBranchOfficeById
    GetBranchOfficeById := GetBranchOfficeById
    GetBranchOfficeByField := GetBranchOfficeByField
    GetBranchOfficeCount := GetBranchOfficeCount }

end repos

/-! ## Package `services` -/

namespace services

open repos (BranchOfficeRepoInterface)

structure ExistsBranchOfficeByFieldInput where
  Field : String
  Value : String
  ExceptId : Option String
  WithTrash : Option Bool
  deriving DecidableEq, Repr

variable {σ : Type}

def ExistsBranchOfficeById (repo : BranchOfficeRepoInterface σ) (s : σ) (id : String)
    (withTrash : Bool) : Bool × Option GoError :=
  match repo.GetBranchOfficeById s id withTrash with
  | (_, some err) => if err.isRecordNotFound then (false, none) else (false, some err)
  | (branchOffice, none) => (branchOffice.isSome, none)

def ExistsBranchOfficeByField (repo : BranchOfficeRepoInterface σ) (s : σ)
    (input : ExistsBranchOfficeByFieldInput) : Bool × Option GoError :=
  let withTrash := match input.WithTrash with
    | some w => w
    | none => false
  match repo.GetBranchOfficeByField s input.Field input.Value withTrash with
  | (_, some err) => if err.isRecordNotFound then (false, none) else (false, some err)
  | (some branchOffice, none) =>
    if input.ExceptId = none ∨ input.ExceptId ≠ some branchOffice.Id then (true, none)
    else (false, none)
  | (none, none) => (false, none)

def GetBranchOfficeById (repo : BranchOfficeRepoInterface σ) (s : σ) (id : String) :
    Option BranchOffice × Option GoError :=
  match repo.GetBranchOfficeById s id false with
  | (_, some err) => (none, some err)
  | (res, none) => (res, none)

def CreateBranchOffice (repo : BranchOfficeRepoInterface σ) (s : σ)
    (req : dto.CreateBranchOfficeRequest) : (Option BranchOffice × Option GoError) × σ :=
  let branchOffice : BranchOffice :=
    { models.BranchOffice.empty with
      Id := req.Id, Name := req.Name, Address := req.Address, PhoneNumber := req.PhoneNumber,
      FaxNumber := req.FaxNumber, City := req.City }
  match repo.CreateBranchOffice s branchOffice with
  | ((_, some err), s1) => ((none, some err), s1)
  | ((res, none), s1) => ((res, none), s1)

def UpdateBranchOfficeById (repo : BranchOfficeRepoInterface σ) (s : σ) (id : String)
    (req : dto.UpdateBranchOfficeRequest) : (Option BranchOffice × Option GoError) × σ :=
  let b0 := models.BranchOffice.empty
  let b1 := match req.Name with
    | some v => { b0 with Name := v }
    | none => b0
  let b2 := match req.Address with
    | some v => { b1 with Address := v }
    | none => b1
  let b3 := match req.PhoneNumber with
    | some v => { b2 with PhoneNumber := v }
    | none => b2
  let b4 := match req.City with
    | some v => { b3 with City := v }
    | none => b3
  let branchOffice := match req.FaxNumber with
    | some v => { b4 with FaxNumber := v }
    | none => b4
  match repo.UpdateBranchOfficeById s id branchOffice with
  | ((_, some err), s1) => ((none, some err), s1)
  | ((res, none), s1) => ((res, none), s1)

def SoftDeleteBranchOfficeById (repo : BranchOfficeRepoInterface σ) (s : σ) (id : String) :
    Option GoError × σ :=
  repo.SoftDeleteBranchOfficeById s id

def HardDeleteBranchOfficeById (repo : BranchOfficeRepoInterface σ) (s : σ) (id : String) :
    Option GoError × σ :=
  repo.HardDeleteBranchOfficeById s id

def RestoreBranchOfficeById (repo : BranchOfficeRepoInterface σ) (s : σ) (id : String) :
    Option GoError × σ :=
  repo.RestoreBranchOfficeById s id

end services

/-! ## Package `validators` -/

namespace validators

open repos (BranchOfficeRepoInterface)

variable {σ : Type}

/-- Engine call `validate.Struct(req)` on a create request: every field carries
`validate:"required"`, which a string fails when it is empty. -/
def validateCreateStruct (req : dto.CreateBranchOfficeRequest) : Option GoError :=
  let failed :=
    [("Id", req.Id), ("Name", req.Name), ("Address", req.Address),
     ("PhoneNumber", req.PhoneNumber), ("City", req.City), ("FaxNumber", req.FaxNumber)].filterMap
      (fun fv => if fv.2 = "" then some fv.1 else none)
  if failed = [] then none else some (GoError.ValidationErrors failed)

/-- A create request that passes `validate.Struct`: all six fields non-empty. -/
def structurallyValid (req : dto.CreateBranchOfficeRequest) : Prop :=
  req.Id ≠ "" ∧ req.Name ≠ "" ∧ req.Address ≠ "" ∧ req.PhoneNumber ≠ "" ∧ req.City ≠ "" ∧
    req.FaxNumber ≠ ""

instance (req : dto.CreateBranchOfficeRequest) : Decidable (structurallyValid req) := by
  unfold structurallyValid; infer_instance

/-- Validator of the create endpoint; `bound` is the outcome of `ctx.ShouldBindJSON(&req)`. -/
def ValidateCreateBranchOfficeRequest (repo : BranchOfficeRepoInterface σ) (s : σ)
    (bound : Except GoError dto.CreateBranchOfficeRequest) :
    Option dto.CreateBranchOfficeRequest × Option GoError :=
  match bound with
  | .error err => (none, some err)
  | .ok req =>
    match validateCreateStruct req with
    | some err => (none, some err)
    | none =>
      if req.Name ≠ "" then
        match services.ExistsBranchOfficeByField repo s
            { Field := "name", Value := req.Name, ExceptId := none, WithTrash := none } with
        | (_, some err) => (none, some err)
        | (warehouseExists, none) =>
          if warehouseExists then (none, some (GoError.DBValidationError "name" "exists"))
          else (some req, none)
      else (some req, none)

/-- Validator of the update endpoint: every field carries `validate:"omitempty"` only, so
`validate.Struct` passes; the service and the id are not consulted. -/
def ValidateUpdateBranchOfficeRequest (_repo : BranchOfficeRepoInterface σ) (_s : σ) (_id : String)
    (bound : Except GoError dto.UpdateBranchOfficeRequest) :
    Option dto.UpdateBranchOfficeRequest × Option GoError :=
  match bound with
  | .error err => (none, some err)
  | .ok req => (some req, none)

end validators

/-! ## Package `controllers` -/

namespace controllers

open repos (BranchOfficeRepoInterface)

variable {σ : Type}

/-- What a handler writes: the HTTP status and, on success, the resource in `data`. -/
structure Response where
  status : Nat
  data : Option dto.BranchOfficeResource
  deriving DecidableEq, Repr

def StatusOK : Nat := 200
def StatusCreated : Nat := 201
def StatusNotFound : Nat := 404
def StatusUnprocessableEntity : Nat := 422
def StatusInternalServerError : Nat := 500

/-- Modelled from the spec: `util.HandleErrorResponse` of the `twin-util` module is not in
the sources; the spec has it format the error envelope for the status it is given. -/
def HandleErrorResponse (status : Nat) (_err : Option GoError) : Response :=
  { status := status, data := none }

def ShowBranchOffice (repo : BranchOfficeRepoInterface σ) (s : σ) (id : String) : Response :=
  match services.ExistsBranchOfficeById repo s id false with
  | (_, some err) => HandleErrorResponse StatusInternalServerError (some err)
  | (false, none) => HandleErrorResponse StatusNotFound none
  | (true, none) =>
    match services.GetBranchOfficeById repo s id with
    | (_, some err) => HandleErrorResponse StatusInternalServerError (some err)
    | (none, none) => HandleErrorResponse StatusInternalServerError none
    | (some data, none) => { status := StatusOK, data := some data.ToDtoResponse }

def CreateBranchOffice (repo : BranchOfficeRepoInterface σ) (s : σ)
    (bound : Except GoError dto.CreateBranchOfficeRequest) : Response × σ :=
  match validators.ValidateCreateBranchOfficeRequest repo s bound with
  | (_, some err) => (HandleErrorResponse StatusUnprocessableEntity (some err), s)
  | (none, none) => (HandleErrorResponse StatusInternalServerError none, s)
  | (some req, none) =>
    match services.CreateBranchOffice repo s req with
    | ((_, some err), s1) => (HandleErrorResponse StatusInternalServerError (some err), s1)
    | ((none, none), s1) => (HandleErrorResponse StatusInternalServerError none, s1)
    | ((some data, none), s1) => ({ status := StatusCreated, data := some data.ToDtoResponse }, s1)

def UpdateBranchOffice (repo : BranchOfficeRepoInterface σ) (s : σ) (id : String)
    (bound : Except GoError dto.UpdateBranchOfficeRequest) : Response × σ :=
  match services.ExistsBranchOfficeById repo s id false with
  | (_, some err) => (HandleErrorResponse StatusInternalServerError (some err), s)
  | (false, none) => (HandleErrorResponse StatusNotFound none, s)
  | (true, none) =>
    match validators.ValidateUpdateBranchOfficeRequest repo s id bound with
    | (_, some err) => (HandleErrorResponse StatusUnprocessableEntity (some err), s)
    | (none, none) => (HandleErrorResponse StatusInternalServerError none, s)
    | (some req, none) =>
      match services.UpdateBranchOfficeById repo s id req with
      | ((_, some err), s1) => (HandleErrorResponse StatusInternalServerError (some err), s1)
      | ((none, none), s1) => (HandleErrorResponse StatusInternalServerError none, s1)
      | ((some data, none), s1) => ({ status := StatusOK, data := some data.ToDtoResponse }, s1)

def SoftDeleteBranchOffice (repo : BranchOfficeRepoInterface σ) (s : σ) (id : String) :
    Response × σ :=
  match services.ExistsBranchOfficeById repo s id false with
  | (_, some err) => (HandleErrorResponse StatusInternalServerError (some err), s)
  | (false, none) => (HandleErrorResponse StatusNotFound none, s)
  | (true, none) =>
    match services.SoftDeleteBranchOfficeById repo s id with
    | (some err, s1) => (HandleErrorResponse StatusInternalServerError (some err), s1)
    | (none, s1) => ({ status := StatusOK, data := none }, s1)

def HardDeleteBranchOffice (repo : BranchOfficeRepoInterface σ) (s : σ) (id : String) :
    Response × σ :=
  match services.ExistsBranchOfficeById repo s id true with
  | (_, some err) => (HandleErrorResponse StatusInternalServerError (some err), s)
  | (false, none) => (HandleErrorResponse StatusNotFound none, s)
  | (true, none) =>
    match services.HardDeleteBranchOfficeById repo s id with
    | (some err, s1) => (HandleErrorResponse StatusInternalServerError (some err), s1)
    | (none, s1) => ({ status := StatusOK, data := none }, s1)

def RestoreBranchOffice (repo : BranchOfficeRepoInterface σ) (s : σ) (id : String) :
    Response × σ :=
  match services.ExistsBranchOfficeById repo s id true with
  | (_, some err) => (HandleErrorResponse StatusInternalServerError (some err), s)
  | (false, none) => (HandleErrorResponse StatusNotFound none, s)
  | (true, none) =>
    match services.RestoreBranchOfficeById repo s id with
    | (some err, s1) => (HandleErrorResponse StatusInternalServerError (some err), s1)
    | (none, s1) => ({ status := StatusOK, data := none }, s1)

end controllers

/-! ## Package `router`: the mutating routes -/

namespace router

/-- A request to one of the routes that change the table. -/
inductive Request where
  | create (bound : Except GoError dto.CreateBranchOfficeRequest)
  | update (id : String) (bound : Except GoError dto.UpdateBranchOfficeRequest)
  | softDelete (id : String)
  | hardDelete (id : String)
  | restore (id : String)

/-- The handler registered for the route of the request, served at clock reading `now`. -/
def serve (now : Time) (t : Table) : Request → controllers.Response × Table
  | .create bound => controllers.CreateBranchOffice (repos.branchOfficeRepo now) t bound
  | .update id bound => controllers.UpdateBranchOffice (repos.branchOfficeRepo now) t id bound
  | .softDelete id => controllers.SoftDeleteBranchOffice (repos.branchOfficeRepo now) t id
  | .hardDelete id => controllers.HardDeleteBranchOffice (repos.branchOfficeRepo now) t id
  | .restore id => controllers.RestoreBranchOffice (repos.branchOfficeRepo now) t id

/-- The table after serving a sequence of requests, all at clock reading `now`. -/
def run (now : Time) (t : Table) : List Request → Table
  | [] => t
  | req :: rest => run now (serve now t req).2 rest

/-- Tables reachable from the empty table through the five mutating routes. -/
inductive Reachable : Table → Prop where
  | empty : Reachable []
  | step {t : Table} (now : Time) (req : Request) : Reachable t → Reachable (serve now t req).2

/-- Tables reachable from the empty table through create, soft-delete and hard-delete. -/
inductive ReachableByCreateAndDelete : Table → Prop where
  | empty : ReachableByCreateAndDelete []
  | create {t : Table} (now : Time) (bound : Except GoError dto.CreateBranchOfficeRequest) :
      ReachableByCreateAndDelete t →
      ReachableByCreateAndDelete (serve now t (.create bound)).2
  | softDelete {t : Table} (now : Time) (id : String) :
      ReachableByCreateAndDelete t →
      ReachableByCreateAndDelete (serve now t (.softDelete id)).2
  | hardDelete {t : Table} (now : Time) (id : String) :
      ReachableByCreateAndDelete t →
      ReachableByCreateAndDelete (serve now t (.hardDelete id)).2

/-- Two create requests whose handlers overlap in time.  The create handler validates and
then inserts, as two statements without a transaction, and the table has no unique index on
`name`; so both validators can run on the table `t` before either insert is made. -/
def overlappingCreates (now : Time) (t : Table) (a b : dto.CreateBranchOfficeRequest) : Table :=
  match validators.ValidateCreateBranchOfficeRequest (repos.branchOfficeRepo now) t (.ok a),
      validators.ValidateCreateBranchOfficeRequest (repos.branchOfficeRepo now) t (.ok b) with
  | (some ra, none), (some rb, none) =>
    (services.CreateBranchOffice (repos.branchOfficeRepo now)
      (services.CreateBranchOffice (repos.branchOfficeRepo now) t ra).2 rb).2
  | _, _ => t

/-- No two rows that are not soft-deleted carry the same name. -/
def liveNamesUnique (t : Table) : Prop :=
  ((t.filter (fun r => r.DeletedAt.isNone)).map (fun r => r.Name)).Nodup

instance (t : Table) : Decidable (liveNamesUnique t) := by
  unfold liveNamesUnique; infer_instance

end router

/-! ## The list route -/

namespace dto

structure GetSimpleBranchOfficeRequest where
  Keyword : Option String
  deriving DecidableEq, Repr

/-- The pagination block of a list response (`dto.Pagination` of the `twin-util` module). -/
structure Pagination where
  Limit : Int
  Page : Int
  TotalRows : Int
  TotalPages : Int
  deriving DecidableEq, Repr

end dto

namespace util

/-- Modelled from the spec: `util.ClearInvalidFields` of the `twin-util` module is not in
the sources; the spec has it clear any field that is not on the allow-list. -/
def ClearInvalidFields (fields allowed : List String) : List String :=
  fields.filter (fun f => allowed.contains f)

/-- Modelled from the spec: `util.EnsureStatusAllowed` of the `twin-util` module is not in
the sources; the spec has it reject any non-empty status outside the allowed values.  The
rejection is the value the call returns. -/
def EnsureStatusAllowed (status : Option String) (allowed : List String) : Option GoError :=
  match status with
  | none => none
  | some v => if v = "" ∨ allowed.contains v then none else some (GoError.other ("status not allowed: " ++ v))

/-- What the sources use of the `twin-util` module and the spec leaves open: the keyword
sanitiser, the page-count calculation and the two pagination defaults. -/
structure Settings where
  ClearInvalidKeyword : String → String
  CalculateTotalPage : Int → Int → Int
  PaginationPage : Int
  PaginationLimit : Int

end util

namespace services

open repos (BranchOfficeRepoInterface)

def convertToBranchOfficeListFilter (u : util.Settings) (req : dto.GetBranchOfficeRequest) :
    repos.GetBranchOfficeListFilter :=
  let fields := match req.Fields with
    | some fs => some (util.ClearInvalidFields fs ["name", "address"])
    | none => some ["name"]
  let keyword := match req.Keyword with
    | some k => some (u.ClearInvalidKeyword k)
    | none => none
  { Fields := fields, Keyword := keyword, Limit := req.Limit, Page := req.Page,
    Status := req.Status }

def GetBranchOfficeList {σ : Type} (u : util.Settings) (repo : BranchOfficeRepoInterface σ) (s : σ)
    (req : dto.GetBranchOfficeRequest) : List BranchOffice × Option GoError :=
  match repo.GetBranchOfficeList s (convertToBranchOfficeListFilter u req) with
  | (_, some err) => ([], some err)
  | (res, none) => (res, none)

/-- The count and the page count.  The result is `none` when `*req.Limit` dereferences a nil
pointer, which the code reaches after a successful count. -/
def GetTotalRowsAndPages {σ : Type} (u : util.Settings) (repo : BranchOfficeRepoInterface σ)
    (s : σ) (req : dto.GetBranchOfficeRequest) : Option (Int × Int × Option GoError) :=
  match repo.GetBranchOfficeCount s (convertToBranchOfficeListFilter u req) with
  | (_, some err) => some (0, 0, some err)
  | (res, none) =>
    match req.Limit with
    | none => none
    | some limit => some (res, u.CalculateTotalPage res limit, none)

/-- The filter of the simple listing: keyword on `name` only, nothing else set. -/
def simpleFilter (u : util.Settings) (req : dto.GetSimpleBranchOfficeRequest) :
    repos.GetBranchOfficeListFilter :=
  { Fields := some ["name"]
    Keyword := match req.Keyword with
      | some k => some (u.ClearInvalidKeyword k)
      | none => none
    Limit := none, Page := none, Status := none }

def GetSimpleBranchOfficeList {σ : Type} (u : util.Settings) (repo : BranchOfficeRepoInterface σ)
    (s : σ) (req : dto.GetSimpleBranchOfficeRequest) : List BranchOffice × Option GoError :=
  match repo.GetBranchOfficeList s (simpleFilter u req) with
  | (_, some err) => ([], some err)
  | (res, none) => (res, none)

end services

namespace validators

/-- Validator of the list endpoint; `bound` is the outcome of `ctx.ShouldBindQuery(&req)`.
Every field carries `validate:"omitempty"` only, so `validate.Struct` passes.  The call of
`util.EnsureStatusAllowed` is a statement: what it returns is not used. -/
def ValidateGetBranchOfficeRequest (u : util.Settings)
    (bound : Except GoError dto.GetBranchOfficeRequest) :
    Option dto.GetBranchOfficeRequest × Option GoError :=
  match bound with
  | .error err => (none, some err)
  | .ok req =>
    let page := match req.Page with
      | some p => some p
      | none => some u.PaginationPage
    let limit := match req.Limit with
      | some l => some l
      | none => some u.PaginationLimit
    let _unused := util.EnsureStatusAllowed req.Status [constant.StatusDeleted]
    (some { req with Page := page, Limit := limit }, none)

end validators

namespace controllers

open repos (BranchOfficeRepoInterface)

/-- What the list handler writes. -/
structure ListResponse where
  status : Nat
  data : List dto.BranchOfficeResource
  pagination : Option dto.Pagination
  deriving DecidableEq, Repr

/-- The list handler.  The result is `none` when the handler dereferences a nil pointer
(`*req.Limit` in the service, `*req.Limit` and `*req.Page` for the pagination block). -/
def GetBranchOffices {σ : Type} (u : util.Settings) (repo : BranchOfficeRepoInterface σ) (s : σ)
    (bound : Except GoError dto.GetBranchOfficeRequest) : Option ListResponse :=
  match validators.ValidateGetBranchOfficeRequest u bound with
  | (_, some _) => some { status := StatusUnprocessableEntity, data := [], pagination := none }
  | (none, none) => none
  | (some req, none) =>
    match services.GetTotalRowsAndPages u repo s req with
    | none => none
    | some (_, _, some _) =>
      some { status := StatusInternalServerError, data := [], pagination := none }
    | some (totalRows, totalPages, none) =>
      match services.GetBranchOfficeList u repo s req with
      | (_, some _) => some { status := StatusInternalServerError, data := [], pagination := none }
      | (data, none) =>
        match req.Limit, req.Page with
        | some limit, some page =>
          some { status := StatusOK, data := data.map (fun item => item.ToDtoResponse),
                 pagination := some { Limit := limit, Page := page, TotalRows := totalRows,
                                      TotalPages := totalPages } }
        | _, _ => none

end controllers

/-! ## The keyword search as the specification words it -/

namespace described

/-- The text contains the keyword, compared case-insensitively. -/
def containsFold (text keyword : String) : Prop :=
  keyword.toList.map Char.toLower <:+: text.toList.map Char.toLower

instance (text keyword : String) : Decidable (containsFold text keyword) := by
  unfold containsFold; infer_instance

/-- The named field of the row contains the keyword case-insensitively. -/
def fieldContains (field keyword : String) (r : BranchOffice) : Prop :=
  match gorm.column field with
  | some col => containsFold (col r) keyword
  | none => False

instance (field keyword : String) (r : BranchOffice) : Decidable (fieldContains field keyword r) := by
  unfold fieldContains; split <;> infer_instance

/-- At least one of the listed fields of the row contains the keyword case-insensitively. -/
def someFieldContains (fields : List String) (keyword : String) (r : BranchOffice) : Prop :=
  ∃ f ∈ fields, fieldContains f keyword r

instance (fields : List String) (keyword : String) (r : BranchOffice) :
    Decidable (someFieldContains fields keyword r) := by
  unfold someFieldContains; infer_instance

/-- The keyword has none of the characters that `LIKE` reads as a pattern: `%`, `_` and the
backslash. -/
def literal (keyword : String) : Prop :=
  ∀ c ∈ keyword.toList, c ≠ Char.ofNat 37 ∧ c ≠ Char.ofNat 95 ∧ c ≠ Char.ofNat 92

instance (keyword : String) : Decidable (literal keyword) := by
  unfold literal; infer_instance

end described

/-! ## The update as the specification words it -/

namespace described

/-- The value of a field after an update: the supplied value when one is supplied and it
is not the empty string, the prior value otherwise. -/
def updatedField (supplied : Option String) (prior : String) : String :=
  match supplied with
  | some v => if v = "" then prior else v
  | none => prior

/-- The record after an update: the five editable fields follow `updatedField`; `Id`,
`CreatedAt` and `DeletedAt` stay. -/
def updatedRecord (req : dto.UpdateBranchOfficeRequest) (r : BranchOffice) : BranchOffice :=
  { Id := r.Id
    Name := updatedField req.Name r.Name
    Address := updatedField req.Address r.Address
    PhoneNumber := updatedField req.PhoneNumber r.PhoneNumber
    FaxNumber := updatedField req.FaxNumber r.FaxNumber
    City := updatedField req.City r.City
    CreatedAt := r.CreatedAt
    DeletedAt := r.DeletedAt }

end described

/-! ## Sample data -/

namespace sample

/-- A clock reading. -/
def noon : Time := ⟨1700000000⟩

/-- A later clock reading. -/
def evening : Time := ⟨1700030000⟩

/-- A live row. -/
def north : BranchOffice :=
  { Id := "b1", Name := "North", Address := "1 Pole Rd", PhoneNumber := "555-0101",
    FaxNumber := "555-0102", City := "Oslo", CreatedAt := ⟨1690000000⟩, DeletedAt := none }

/-- A second live row. -/
def south : BranchOffice :=
  { Id := "b2", Name := "South", Address := "2 Cape Rd", PhoneNumber := "555-0201",
    FaxNumber := "555-0202", City := "Ushuaia", CreatedAt := ⟨1690000100⟩, DeletedAt := none }

/-- A soft-deleted row. -/
def east : BranchOffice :=
  { Id := "b3", Name := "East", Address := "3 Dawn Rd", PhoneNumber := "555-0301",
    FaxNumber := "555-0302", City := "Tokyo", CreatedAt := ⟨1690000200⟩,
    DeletedAt := some ⟨1695000000⟩ }

/-- A live row whose primary key is the empty string. -/
def unkeyed : BranchOffice :=
  { Id := "", Name := "Depot", Address := "4 Back Rd", PhoneNumber := "555-0401",
    FaxNumber := "555-0402", City := "Lima", CreatedAt := ⟨1690000300⟩, DeletedAt := none }

/-- An update that renames, supplies an empty address and omits the rest. -/
def rename : dto.UpdateBranchOfficeRequest :=
  { Name := some "Northern", Address := some "", PhoneNumber := none, City := none,
    FaxNumber := none }

/-- A create request with a fresh id and a fresh name. -/
def newWest : dto.CreateBranchOfficeRequest :=
  { Id := "b4", Name := "West", Address := "5 Dusk Rd", PhoneNumber := "555-0501",
    City := "Lisbon", FaxNumber := "555-0502" }

/-- A create request with a fresh id and the name of the soft-deleted row. -/
def newEast : dto.CreateBranchOfficeRequest :=
  { Id := "b5", Name := "East", Address := "6 Dawn Rd", PhoneNumber := "555-0601",
    City := "Osaka", FaxNumber := "555-0602" }

/-- A create request for row `b1`. -/
def newNorth : dto.CreateBranchOfficeRequest :=
  { Id := "b1", Name := "North", Address := "1 Pole Rd", PhoneNumber := "555-0101",
    City := "Oslo", FaxNumber := "555-0102" }

/-- A create request for row `b2` with the name of row `b1`. -/
def newNorthAgain : dto.CreateBranchOfficeRequest :=
  { Id := "b2", Name := "North", Address := "7 Pole Rd", PhoneNumber := "555-0701",
    City := "Bergen", FaxNumber := "555-0702" }

/-- A create request for row `b2`. -/
def newSouth : dto.CreateBranchOfficeRequest :=
  { Id := "b2", Name := "South", Address := "2 Cape Rd", PhoneNumber := "555-0201",
    City := "Ushuaia", FaxNumber := "555-0202" }

/-- An update that renames to `North`. -/
def renameToNorth : dto.UpdateBranchOfficeRequest :=
  { Name := some "North", Address := none, PhoneNumber := none, City := none, FaxNumber := none }

/-- Create `b1`, soft-delete it, create `b2` under the same name, restore `b1`. -/
def restoreAfterReuse : List router.Request :=
  [.create (.ok newNorth), .softDelete "b1", .create (.ok newNorthAgain), .restore "b1"]

/-- Create `b1` and `b2` under different names, then rename `b2` to the name of `b1`. -/
def renameOntoOther : List router.Request :=
  [.create (.ok newNorth), .create (.ok newSouth), .update "b2" (.ok renameToNorth)]

/-- A live row `b2` carrying the name of row `b1`. -/
def northTwin : BranchOffice :=
  { Id := "b2", Name := "North", Address := "7 Pole Rd", PhoneNumber := "555-0701",
    FaxNumber := "555-0702", City := "Bergen", CreatedAt := ⟨1690000400⟩, DeletedAt := none }

/-- The uniqueness question an update of row `b1` would ask about the name `North`. -/
def northExceptB1 : services.ExistsBranchOfficeByFieldInput :=
  { Field := "name", Value := "North", ExceptId := some "b1", WithTrash := none }

/-- A keyword search on `name` whose keyword holds the one-character wildcard. -/
def wildcardFilter : repos.GetBranchOfficeListFilter :=
  { Fields := some ["name"], Keyword := some "n_r", Limit := none, Page := none, Status := none }

/-- A keyword search that lists a column the table does not have. -/
def strayColumnFilter : repos.GetBranchOfficeListFilter :=
  { Fields := some ["name", "colour"], Keyword := some "north", Limit := none, Page := none,
    Status := none }

/-- A keyword search on `name` and `address` for the first page of size one. -/
def poleFilter : repos.GetBranchOfficeListFilter :=
  { Fields := some ["name", "address"], Keyword := some "POLE", Limit := some 1, Page := some 1,
    Status := none }

/-- Settings of the collaborators: the keyword is kept as it is, the page count is the
rounded-up quotient, and the defaults are page 1 of size 10. -/
def settings : util.Settings :=
  { ClearInvalidKeyword := fun k => k
    CalculateTotalPage := fun rows limit => (rows + limit - 1) / limit
    PaginationPage := 1
    PaginationLimit := 10 }

/-- A list request whose status is neither empty nor `deleted`. -/
def archivedQuery : dto.GetBranchOfficeRequest :=
  { Fields := none, Keyword := none, Limit := none, Page := none, Status := some "archived" }

/-- A list request that names three fields and sets the page, not the limit. -/
def pagedQuery : dto.GetBranchOfficeRequest :=
  { Fields := some ["city", "address", "name"], Keyword := some "rd", Limit := none,
    Page := some 2, Status := none }

/-- A keyword search on `name` and `address` in the deleted mode, for a keyword that only
a live row carries. -/
def trashedNorthFilter : repos.GetBranchOfficeListFilter :=
  { Fields := some ["name", "address"], Keyword := some "north", Limit := none, Page := none,
    Status := some "deleted" }

/-- A keyword search on `name` and `address` in the deleted mode, for a keyword that a live
and a soft-deleted row carry. -/
def trashedRoadFilter : repos.GetBranchOfficeListFilter :=
  { Fields := some ["name", "address"], Keyword := some "rd", Limit := none, Page := none,
    Status := some "deleted" }

/-- A create request for row `b6` with the name of row `b1`. -/
def newNorthThird : dto.CreateBranchOfficeRequest :=
  { Id := "b6", Name := "North", Address := "8 Pole Rd", PhoneNumber := "555-0801",
    City := "Tromso", FaxNumber := "555-0802" }

/-- Create `b1`, soft-delete it, create `b2` under the same name, try to create `b6` under
that name again, create `b4`, hard-delete `b4`: each request served before the next. -/
def reuseAfterDelete : List router.Request :=
  [.create (.ok newNorth), .softDelete "b1", .create (.ok newNorthAgain),
   .create (.ok newNorthThird), .create (.ok newWest), .hardDelete "b4"]

/-- A filter with every field nil. -/
def noFilter : repos.GetBranchOfficeListFilter :=
  { Fields := none, Keyword := none, Limit := none, Page := none, Status := none }

end sample

/-! ## Lookups by primary key -/

open repos services

theorem leastId_eq_none_iff (l : List BranchOffice) : gorm.leastId l = none ↔ l = [] := by
  cases l with
  | nil => simp [gorm.leastId]
  | cons r rs =>
    simp only [gorm.leastId]
    cases gorm.leastId rs with
    | none => simp
    | some m => by_cases h : gorm.textLt m.Id r.Id = true <;> simp [h]

theorem leastId_mem {l : List BranchOffice} {m : BranchOffice} (h : gorm.leastId l = some m) :
    m ∈ l := by
  induction l generalizing m with
  | nil => simp [gorm.leastId] at h
  | cons r rs ih =>
    simp only [gorm.leastId] at h
    cases hrs : gorm.leastId rs with
    | none =>
      rw [hrs] at h
      simp only [Option.some.injEq] at h
      simp [← h]
    | some k =>
      rw [hrs] at h
      by_cases hk : gorm.textLt k.Id r.Id = true
      · simp only [hk, if_true, Option.some.injEq] at h
        subst h
        exact List.mem_cons_of_mem _ (ih hrs)
      · simp [hk] at h
        simp [← h]

theorem First_nil_iff (l : List BranchOffice) :
    gorm.First l = (none, some GoError.ErrRecordNotFound) ↔ l = [] := by
  unfold gorm.First
  cases h : gorm.leastId l with
  | none => simpa using (leastId_eq_none_iff l).1 h
  | some m =>
    have : l ≠ [] := fun hl => by simp [hl, gorm.leastId] at h
    simp [this]

theorem First_cases (l : List BranchOffice) :
    (l = [] ∧ gorm.First l = (none, some GoError.ErrRecordNotFound)) ∨
      ∃ m, m ∈ l ∧ gorm.First l = (some m, none) := by
  unfold gorm.First
  cases h : gorm.leastId l with
  | none => exact Or.inl ⟨(leastId_eq_none_iff l).1 h, rfl⟩
  | some m => exact Or.inr ⟨m, leastId_mem h, rfl⟩

theorem wf_unique {t : Table} (hwf : t.wf) {a b : BranchOffice} (ha : a ∈ t) (hb : b ∈ t)
    (h : a.Id = b.Id) : a = b :=
  List.inj_on_of_nodup_map hwf ha hb h

theorem getById_notFound {t : Table} {id : String} {withTrash : Bool}
    (h : ∀ x ∈ t, x.Id = id → gorm.visible withTrash x = false) :
    repos.GetBranchOfficeById t id withTrash = (none, some GoError.ErrRecordNotFound) := by
  unfold repos.GetBranchOfficeById
  rw [First_nil_iff, List.filter_eq_nil_iff]
  intro x hx
  by_cases hxi : x.Id = id
  · simp [h x hx hxi]
  · simp [hxi]

theorem getById_found {t : Table} (hwf : t.wf) {r : BranchOffice} (hr : r ∈ t) {withTrash : Bool}
    (hv : gorm.visible withTrash r = true) :
    repos.GetBranchOfficeById t r.Id withTrash = (some r, none) := by
  unfold repos.GetBranchOfficeById
  rcases First_cases (t.filter (fun x => x.Id == r.Id && gorm.visible withTrash x)) with
    ⟨hnil, _⟩ | ⟨m, hm, hres⟩
  · have : r ∈ t.filter (fun x => x.Id == r.Id && gorm.visible withTrash x) := by
      simp [List.mem_filter, hr, hv]
    rw [hnil] at this
    cases this
  · rw [hres]
    simp only [List.mem_filter, Bool.and_eq_true, beq_iff_eq] at hm
    rw [wf_unique hwf hm.1 hr hm.2.1]

theorem existsById_of_found {t : Table} {now : Time} {id : String} {withTrash : Bool}
    {r : BranchOffice} (h : repos.GetBranchOfficeById t id withTrash = (some r, none)) :
    services.ExistsBranchOfficeById (repos.branchOfficeRepo now) t id withTrash = (true, none) := by
  simp [services.ExistsBranchOfficeById, repos.branchOfficeRepo, h]

theorem existsById_of_notFound {t : Table} {now : Time} {id : String} {withTrash : Bool}
    (h : repos.GetBranchOfficeById t id withTrash = (none, some GoError.ErrRecordNotFound)) :
    services.ExistsBranchOfficeById (repos.branchOfficeRepo now) t id withTrash = (false, none) := by
  simp [services.ExistsBranchOfficeById, repos.branchOfficeRepo, h, GoError.isRecordNotFound]

/-! ## Listing -/

theorem statusCondition_default {filter : GetBranchOfficeListFilter}
    (hs : filter.Status ≠ some constant.StatusDeleted) (x : BranchOffice) :
    repos.statusCondition filter x = x.DeletedAt.isNone := by
  unfold repos.statusCondition
  cases h : filter.Status with
  | none => rfl
  | some status =>
    have : status ≠ constant.StatusDeleted := fun hc => hs (by rw [h, hc])
    simp [this]

/-- Under the soft-delete scope the `WHERE` clause holds of live rows only. -/
theorem whereClause_default {filter : GetBranchOfficeListFilter}
    (hs : filter.Status ≠ some constant.StatusDeleted) (conds : List (BranchOffice → Bool))
    {x : BranchOffice} (h : repos.whereClause filter conds x = true) :
    x.DeletedAt.isNone = true := by
  unfold repos.whereClause at h
  split at h
  · rwa [statusCondition_default hs] at h
  · rw [statusCondition_default hs] at h
    simp only [Bool.and_eq_true] at h
    exact h.2
  · simp only [hs, if_false, Bool.and_eq_true] at h
    exact h.2

theorem selectRows_mem {t : Table} {filter : GetBranchOfficeListFilter} {rows : List BranchOffice}
    (h : repos.selectRows t filter = .ok rows) {x : BranchOffice} (hx : x ∈ rows) :
    x ∈ t ∧ (filter.Status ≠ some constant.StatusDeleted → x.DeletedAt.isNone = true) := by
  unfold repos.selectRows at h
  cases hk : repos.keywordConditions filter with
  | error e => simp [hk] at h
  | ok conds =>
    simp only [hk, Except.ok.injEq] at h
    subst h
    have hx1 := List.mem_filter.1 hx
    exact ⟨hx1.1, fun hs => whereClause_default hs conds hx1.2⟩

theorem orderByName_mem {rows : List BranchOffice} {x : BranchOffice} :
    x ∈ repos.orderByName rows ↔ x ∈ rows :=
  (List.perm_insertionSort _ rows).mem_iff

theorem Paginate_mem {rows : List BranchOffice} {limit page : Int} {x : BranchOffice}
    (h : x ∈ util.Paginate rows limit page) : x ∈ rows :=
  List.mem_of_mem_drop (List.mem_of_mem_take h)

theorem list_mem {t : Table} {filter : GetBranchOfficeListFilter} {x : BranchOffice}
    (hx : x ∈ (repos.GetBranchOfficeList t filter).1) :
    x ∈ t ∧ (filter.Status ≠ some constant.StatusDeleted → x.DeletedAt.isNone = true) := by
  unfold repos.GetBranchOfficeList at hx
  cases hs : repos.selectRows t filter with
  | error e => simp [hs] at hx
  | ok rows =>
    simp only [hs] at hx
    have key : x ∈ repos.orderByName rows := by
      cases hl : filter.Limit with
      | none => simpa [hl] using hx
      | some limit =>
        cases hp : filter.Page with
        | none => simpa [hl, hp] using hx
        | some page =>
          simp only [hl, hp] at hx
          exact Paginate_mem hx
    exact selectRows_mem hs (orderByName_mem.1 key)

/-! ## Soft delete -/

/-- The row update of the soft-delete statement. -/
theorem softDelete_table {now : Time} {t : Table} {id : String} (hid : id ≠ "") :
    repos.SoftDeleteBranchOfficeById now t id =
      (none, t.map (fun r =>
        if r.Id == id && r.DeletedAt.isNone then { r with DeletedAt := some now } else r)) := by
  simp [repos.SoftDeleteBranchOfficeById, hid]

theorem map_keepId_wf {t : Table} (hwf : t.wf) (f : BranchOffice → BranchOffice)
    (hf : ∀ x, (f x).Id = x.Id) : Table.wf (t.map f) := by
  unfold Table.wf at *
  rw [List.map_map]
  have : ((fun r : BranchOffice => r.Id) ∘ f) = fun r => r.Id := by
    funext x
    exact hf x
  rw [this]
  exact hwf

/-- C1, for non-empty ids: soft-deleting a live record succeeds, after which the default
lookup by id reports record-not-found, the default existence check is false, no listing
whose status is not "deleted" (in particular one with no status) contains a row with that
id, while the with-trash lookup returns the record (now carrying the deletion time) and the
with-trash existence check is true. -/
theorem softDelete_hidden_by_default_visible_with_trash (now : Time) (t : Table)
    (r : BranchOffice) (hwf : t.wf) (hr : r ∈ t) (hlive : r.DeletedAt = none) (hid : r.Id ≠ "") :
    (services.SoftDeleteBranchOfficeById (repos.branchOfficeRepo now) t r.Id).1 = none ∧
    repos.GetBranchOfficeById
        (services.SoftDeleteBranchOfficeById (repos.branchOfficeRepo now) t r.Id).2 r.Id false
      = (none, some GoError.ErrRecordNotFound) ∧
    services.ExistsBranchOfficeById (repos.branchOfficeRepo now)
        (services.SoftDeleteBranchOfficeById (repos.branchOfficeRepo now) t r.Id).2 r.Id false
      = (false, none) ∧
    (∀ filter : GetBranchOfficeListFilter, filter.Status ≠ some constant.StatusDeleted →
      ∀ x ∈ (repos.GetBranchOfficeList
        (services.SoftDeleteBranchOfficeById (repos.branchOfficeRepo now) t r.Id).2 filter).1,
        x.Id ≠ r.Id) ∧
    repos.GetBranchOfficeById
        (services.SoftDeleteBranchOfficeById (repos.branchOfficeRepo now) t r.Id).2 r.Id true
      = (some { r with DeletedAt := some now }, none) ∧
    services.ExistsBranchOfficeById (repos.branchOfficeRepo now)
        (services.SoftDeleteBranchOfficeById (repos.branchOfficeRepo now) t r.Id).2 r.Id true
      = (true, none) := by
  have hsd : services.SoftDeleteBranchOfficeById (repos.branchOfficeRepo now) t r.Id =
      (none, t.map (fun x =>
        if x.Id == r.Id && x.DeletedAt.isNone then { x with DeletedAt := some now } else x)) :=
    softDelete_table hid
  rw [hsd]
  set f : BranchOffice → BranchOffice := fun x =>
    if x.Id == r.Id && x.DeletedAt.isNone then { x with DeletedAt := some now } else x with hf
  have hfid : ∀ x, (f x).Id = x.Id := by
    intro x
    simp only [hf]
    split <;> rfl
  have hwf1 : Table.wf (t.map f) := map_keepId_wf hwf f hfid
  have hdel : ∀ x ∈ t.map f, x.Id = r.Id → x.DeletedAt.isNone = false := by
    intro x hx hxi
    obtain ⟨y, _, rfl⟩ := List.mem_map.1 hx
    have hyi : y.Id = r.Id := by rw [← hfid y]; exact hxi
    simp only [hf, hyi, beq_self_eq_true, Bool.true_and]
    cases hy : y.DeletedAt <;> simp [hy]
  have hfr : f r = { r with DeletedAt := some now } := by
    simp [hf, hlive]
  have hmem : ({ r with DeletedAt := some now } : BranchOffice) ∈ t.map f :=
    hfr ▸ List.mem_map_of_mem f hr
  have hnf : repos.GetBranchOfficeById (t.map f) r.Id false
      = (none, some GoError.ErrRecordNotFound) :=
    getById_notFound (fun x hx hxi => by simp [gorm.visible, hdel x hx hxi])
  have hfound : repos.GetBranchOfficeById (t.map f) r.Id true
      = (some { r with DeletedAt := some now }, none) :=
    getById_found hwf1 hmem (by simp [gorm.visible])
  refine ⟨rfl, hnf, existsById_of_notFound hnf, ?_, hfound, existsById_of_found hfound⟩
  intro filter hs x hx hxi
  have hx1 := list_mem hx
  have hx2 := hx1.2 hs
  rw [hdel x hx1.1 hxi] at hx2
  exact absurd hx2 (by simp)

/-- Witness for C1: the sample table, soft-deleting row `b1`. -/
theorem softDelete_hidden_by_default_visible_with_trash_witness :
    Table.wf [sample.north, sample.east] ∧ sample.north ∈ [sample.north, sample.east] ∧
    sample.north.DeletedAt = none ∧ sample.north.Id ≠ "" ∧
    repos.GetBranchOfficeById
        (services.SoftDeleteBranchOfficeById (repos.branchOfficeRepo sample.noon)
          [sample.north, sample.east] sample.north.Id).2 sample.north.Id false
      = (none, some GoError.ErrRecordNotFound) :=
  ⟨by decide, by decide, rfl, by decide,
    (softDelete_hidden_by_default_visible_with_trash sample.noon [sample.north, sample.east]
      sample.north (by decide) (by decide) rfl (by decide)).2.1⟩

/-- C1 as stated fails for the empty id: the table holds one live record whose id is the
empty string; soft-deleting that id is refused with `ErrMissingWhereClause`, the table is
unchanged, and the default lookup, existence check and listing still show the record. -/
theorem softDelete_empty_id_stays_visible :
    Table.wf [sample.unkeyed] ∧ sample.unkeyed ∈ [sample.unkeyed] ∧
    sample.unkeyed.DeletedAt = none ∧
    services.SoftDeleteBranchOfficeById (repos.branchOfficeRepo sample.noon) [sample.unkeyed]
        sample.unkeyed.Id = (some GoError.ErrMissingWhereClause, [sample.unkeyed]) ∧
    repos.GetBranchOfficeById
        (services.SoftDeleteBranchOfficeById (repos.branchOfficeRepo sample.noon)
          [sample.unkeyed] sample.unkeyed.Id).2 sample.unkeyed.Id false
      = (some sample.unkeyed, none) ∧
    services.ExistsBranchOfficeById (repos.branchOfficeRepo sample.noon)
        (services.SoftDeleteBranchOfficeById (repos.branchOfficeRepo sample.noon)
          [sample.unkeyed] sample.unkeyed.Id).2 sample.unkeyed.Id false
      = (true, none) ∧
    sample.unkeyed ∈ (repos.GetBranchOfficeList
        (services.SoftDeleteBranchOfficeById (repos.branchOfficeRepo sample.noon)
          [sample.unkeyed] sample.unkeyed.Id).2 sample.noFilter).1 := by
  decide

/-! ## Restore -/

theorem restore_table (now : Time) (t : Table) (id : String) :
    services.RestoreBranchOfficeById (repos.branchOfficeRepo now) t id =
      (none, t.map (fun r => if r.Id == id then { r with DeletedAt := none } else r)) :=
  rfl

theorem clear_deletedAt_of_live {x : BranchOffice} (h : x.DeletedAt = none) :
    ({ x with DeletedAt := none } : BranchOffice) = x := by
  cases x
  simp_all

/-- C2: for a live record of a table with unique ids, soft-deleting its id and then
restoring it (at any later clock reading) leaves exactly the original table, so every
lookup by id and every listing and count returns what it returned before. -/
theorem restore_reverses_softDelete (now later : Time) (t : Table) (r : BranchOffice)
    (hwf : t.wf) (hr : r ∈ t) (hlive : r.DeletedAt = none) :
    (services.RestoreBranchOfficeById (repos.branchOfficeRepo later)
        (services.SoftDeleteBranchOfficeById (repos.branchOfficeRepo now) t r.Id).2 r.Id)
      = (none, t) ∧
    (∀ (id : String) (withTrash : Bool),
      repos.GetBranchOfficeById
          (services.RestoreBranchOfficeById (repos.branchOfficeRepo later)
            (services.SoftDeleteBranchOfficeById (repos.branchOfficeRepo now) t r.Id).2 r.Id).2
          id withTrash
        = repos.GetBranchOfficeById t id withTrash) ∧
    (∀ filter : GetBranchOfficeListFilter,
      repos.GetBranchOfficeList
          (services.RestoreBranchOfficeById (repos.branchOfficeRepo later)
            (services.SoftDeleteBranchOfficeById (repos.branchOfficeRepo now) t r.Id).2 r.Id).2
          filter
        = repos.GetBranchOfficeList t filter ∧
      repos.GetBranchOfficeCount
          (services.RestoreBranchOfficeById (repos.branchOfficeRepo later)
            (services.SoftDeleteBranchOfficeById (repos.branchOfficeRepo now) t r.Id).2 r.Id).2
          filter
        = repos.GetBranchOfficeCount t filter) := by
  have key : services.RestoreBranchOfficeById (repos.branchOfficeRepo later)
      (services.SoftDeleteBranchOfficeById (repos.branchOfficeRepo now) t r.Id).2 r.Id
      = (none, t) := by
    rw [restore_table]
    by_cases hid : r.Id = ""
    · have hsd : services.SoftDeleteBranchOfficeById (repos.branchOfficeRepo now) t r.Id
          = (some GoError.ErrMissingWhereClause, t) := by
        simp [services.SoftDeleteBranchOfficeById, repos.branchOfficeRepo,
          repos.SoftDeleteBranchOfficeById, hid]
      rw [hsd]
      dsimp only
      congr 1
      conv_rhs => rw [← List.map_id t]
      apply List.map_congr_left
      intro x hx
      by_cases hxi : x.Id = r.Id
      · obtain rfl := wf_unique hwf hx hr hxi
        simp [clear_deletedAt_of_live hlive]
      · simp [hxi]
    · have hsd : services.SoftDeleteBranchOfficeById (repos.branchOfficeRepo now) t r.Id = _ :=
        softDelete_table hid
      rw [hsd]
      congr 1
      simp only [List.map_map]
      conv_rhs => rw [← List.map_id t]
      apply List.map_congr_left
      intro x hx
      by_cases hxi : x.Id = r.Id
      · obtain rfl := wf_unique hwf hx hr hxi
        simp [hlive, clear_deletedAt_of_live hlive]
      · simp [hxi]
  refine ⟨key, ?_, ?_⟩
  · intro id withTrash
    rw [key]
  · intro filter
    rw [key]
    exact ⟨rfl, rfl⟩

/-- Witness for C2: soft-deleting and restoring row `b1` of the sample table. -/
theorem restore_reverses_softDelete_witness :
    Table.wf [sample.north, sample.east] ∧ sample.north ∈ [sample.north, sample.east] ∧
    sample.north.DeletedAt = none ∧
    (services.RestoreBranchOfficeById (repos.branchOfficeRepo sample.evening)
        (services.SoftDeleteBranchOfficeById (repos.branchOfficeRepo sample.noon)
          [sample.north, sample.east] sample.north.Id).2 sample.north.Id)
      = (none, [sample.north, sample.east]) :=
  ⟨by decide, by decide, rfl,
    (restore_reverses_softDelete sample.noon sample.evening [sample.north, sample.east]
      sample.north (by decide) (by decide) rfl).1⟩

/-! ## Hard delete -/

theorem hardDelete_table {now : Time} {t : Table} {id : String} (hid : id ≠ "") :
    services.HardDeleteBranchOfficeById (repos.branchOfficeRepo now) t id =
      (none, t.filter (fun r => r.Id != id)) := by
  simp [services.HardDeleteBranchOfficeById, repos.branchOfficeRepo,
    repos.HardDeleteBranchOfficeById, hid]

/-- C3, for non-empty ids: whatever the table holds, after hard-deleting the id both
lookups by id report record-not-found and both existence checks are false; Show, Restore
and Hard-delete requests for the id answer 404 and leave the table as it is; and the
repository restore neither changes the table nor makes the id retrievable. -/
theorem hardDelete_terminal (now : Time) (t : Table) (id : String) (hid : id ≠ "")
    (withTrash : Bool) :
    (services.HardDeleteBranchOfficeById (repos.branchOfficeRepo now) t id).1 = none ∧
    repos.GetBranchOfficeById
        (services.HardDeleteBranchOfficeById (repos.branchOfficeRepo now) t id).2 id withTrash
      = (none, some GoError.ErrRecordNotFound) ∧
    services.ExistsBranchOfficeById (repos.branchOfficeRepo now)
        (services.HardDeleteBranchOfficeById (repos.branchOfficeRepo now) t id).2 id withTrash
      = (false, none) ∧
    (controllers.ShowBranchOffice (repos.branchOfficeRepo now)
        (services.HardDeleteBranchOfficeById (repos.branchOfficeRepo now) t id).2 id).status
      = controllers.StatusNotFound ∧
    controllers.RestoreBranchOffice (repos.branchOfficeRepo now)
        (services.HardDeleteBranchOfficeById (repos.branchOfficeRepo now) t id).2 id
      = ({ status := controllers.StatusNotFound, data := none },
          (services.HardDeleteBranchOfficeById (repos.branchOfficeRepo now) t id).2) ∧
    controllers.HardDeleteBranchOffice (repos.branchOfficeRepo now)
        (services.HardDeleteBranchOfficeById (repos.branchOfficeRepo now) t id).2 id
      = ({ status := controllers.StatusNotFound, data := none },
          (services.HardDeleteBranchOfficeById (repos.branchOfficeRepo now) t id).2) ∧
    (services.RestoreBranchOfficeById (repos.branchOfficeRepo now)
        (services.HardDeleteBranchOfficeById (repos.branchOfficeRepo now) t id).2 id).2
      = (services.HardDeleteBranchOfficeById (repos.branchOfficeRepo now) t id).2 ∧
    repos.GetBranchOfficeById
        (services.RestoreBranchOfficeById (repos.branchOfficeRepo now)
          (services.HardDeleteBranchOfficeById (repos.branchOfficeRepo now) t id).2 id).2
        id withTrash
      = (none, some GoError.ErrRecordNotFound) := by
  rw [hardDelete_table hid]
  have hgone : ∀ x ∈ t.filter (fun r => r.Id != id), x.Id ≠ id := by
    intro x hx
    simpa using (List.mem_filter.1 hx).2
  have hnf : ∀ w : Bool, repos.GetBranchOfficeById (t.filter (fun r => r.Id != id)) id w
      = (none, some GoError.ErrRecordNotFound) :=
    fun w => getById_notFound (fun x hx hxi => absurd hxi (hgone x hx))
  have hex : ∀ w : Bool, services.ExistsBranchOfficeById (repos.branchOfficeRepo now)
      (t.filter (fun r => r.Id != id)) id w = (false, none) :=
    fun w => existsById_of_notFound (hnf w)
  have hrest : (services.RestoreBranchOfficeById (repos.branchOfficeRepo now)
      (t.filter (fun r => r.Id != id)) id).2 = t.filter (fun r => r.Id != id) := by
    rw [restore_table]
    simp only
    conv_rhs => rw [← List.map_id (t.filter (fun r => r.Id != id))]
    apply List.map_congr_left
    intro x hx
    simp [hgone x hx]
  refine ⟨rfl, hnf withTrash, hex withTrash, ?_, ?_, ?_, hrest, ?_⟩
  · simp [controllers.ShowBranchOffice, hex false, controllers.HandleErrorResponse]
  · simp [controllers.RestoreBranchOffice, hex true, controllers.HandleErrorResponse]
  · simp [controllers.HardDeleteBranchOffice, hex true, controllers.HandleErrorResponse]
  · rw [hrest]
    exact hnf withTrash

/-- Witness for C3: hard-deleting the soft-deleted row `b3` of the sample table. -/
theorem hardDelete_terminal_witness :
    sample.east.Id ≠ "" ∧
    repos.GetBranchOfficeById
        (services.HardDeleteBranchOfficeById (repos.branchOfficeRepo sample.noon)
          [sample.north, sample.east] sample.east.Id).2 sample.east.Id true
      = (none, some GoError.ErrRecordNotFound) :=
  ⟨by decide,
    (hardDelete_terminal sample.noon [sample.north, sample.east] sample.east.Id (by decide)
      true).2.1⟩

/-- C3 as stated fails for the empty id: hard-deleting the empty id is refused with
`ErrMissingWhereClause`, the record whose id is the empty string stays in the table, both
lookups still return it, and a Show request for it answers 200. -/
theorem hardDelete_empty_id_not_terminal :
    services.HardDeleteBranchOfficeById (repos.branchOfficeRepo sample.noon) [sample.unkeyed] ""
      = (some GoError.ErrMissingWhereClause, [sample.unkeyed]) ∧
    repos.GetBranchOfficeById
        (services.HardDeleteBranchOfficeById (repos.branchOfficeRepo sample.noon)
          [sample.unkeyed] "").2 "" true
      = (some sample.unkeyed, none) ∧
    repos.GetBranchOfficeById
        (services.HardDeleteBranchOfficeById (repos.branchOfficeRepo sample.noon)
          [sample.unkeyed] "").2 "" false
      = (some sample.unkeyed, none) ∧
    services.ExistsBranchOfficeById (repos.branchOfficeRepo sample.noon)
        (services.HardDeleteBranchOfficeById (repos.branchOfficeRepo sample.noon)
          [sample.unkeyed] "").2 "" true
      = (true, none) ∧
    (controllers.ShowBranchOffice (repos.branchOfficeRepo sample.noon)
        (services.HardDeleteBranchOfficeById (repos.branchOfficeRepo sample.noon)
          [sample.unkeyed] "").2 "").status = controllers.StatusOK := by
  decide

/-! ## Update -/

/-- The sparse entity the service builds from an update request. -/
theorem update_entity (req : dto.UpdateBranchOfficeRequest) (r : BranchOffice) :
    ∃ b : BranchOffice, b.Id = "" ∧ repos.assign b r = described.updatedRecord req r ∧
      ∀ (σ : Type) (repo : BranchOfficeRepoInterface σ) (s : σ) (id : String),
        services.UpdateBranchOfficeById repo s id req =
          match repo.UpdateBranchOfficeById s id b with
          | ((_, some err), s1) => ((none, some err), s1)
          | ((res, none), s1) => ((res, none), s1) := by
  obtain ⟨n, a, p, c, f⟩ := req
  refine ⟨{ models.BranchOffice.empty with
      Name := n.getD "", Address := a.getD "", PhoneNumber := p.getD "", City := c.getD "",
      FaxNumber := f.getD "" }, rfl, ?_, ?_⟩
  · cases n <;> cases a <;> cases p <;> cases c <;> cases f <;>
      simp [repos.assign, described.updatedRecord, described.updatedField,
        models.BranchOffice.empty, Time.IsZero]
  · intro σ repo s id
    cases n <;> cases a <;> cases p <;> cases c <;> cases f <;> rfl

/-- The repository update for an entity without a primary key: the rows with the id
inside the soft-delete scope take the assignments, and the read that follows is the
default lookup by id on the new table. -/
theorem repo_update_unkeyed (t : Table) (id : String) (b : BranchOffice) (hb : b.Id = "") :
    repos.UpdateBranchOfficeById t id b =
      (repos.GetBranchOfficeById
          (t.map (fun r => if r.Id == id && r.DeletedAt.isNone then repos.assign b r else r))
          id false,
        t.map (fun r => if r.Id == id && r.DeletedAt.isNone then repos.assign b r else r)) := by
  simp [repos.UpdateBranchOfficeById, repos.GetBranchOfficeById, hb, gorm.visible]

/-- C4: for a live record of a table with unique ids and any update request, the update
succeeds and returns the updated row; in the new table the record has each of name,
address, phoneNumber, city and faxNumber equal to the request's value when that is
supplied and non-empty and to its prior value otherwise, with id, createdAt and deletedAt
unchanged, and every other row is unchanged. -/
theorem update_changes_only_supplied_fields (now : Time) (t : Table) (r : BranchOffice)
    (req : dto.UpdateBranchOfficeRequest) (hwf : t.wf) (hr : r ∈ t)
    (hlive : r.DeletedAt = none) :
    services.UpdateBranchOfficeById (repos.branchOfficeRepo now) t r.Id req =
      ((some (described.updatedRecord req r), none),
        t.map (fun x => if x.Id = r.Id then described.updatedRecord req r else x)) ∧
    (described.updatedRecord req r).Id = r.Id ∧
    (described.updatedRecord req r).CreatedAt = r.CreatedAt ∧
    (described.updatedRecord req r).DeletedAt = r.DeletedAt ∧
    (∀ v, req.Name = some v → v ≠ "" → (described.updatedRecord req r).Name = v) ∧
    ((req.Name = none ∨ req.Name = some "") → (described.updatedRecord req r).Name = r.Name) ∧
    (∀ v, req.Address = some v → v ≠ "" → (described.updatedRecord req r).Address = v) ∧
    ((req.Address = none ∨ req.Address = some "") →
      (described.updatedRecord req r).Address = r.Address) ∧
    (∀ v, req.PhoneNumber = some v → v ≠ "" → (described.updatedRecord req r).PhoneNumber = v) ∧
    ((req.PhoneNumber = none ∨ req.PhoneNumber = some "") →
      (described.updatedRecord req r).PhoneNumber = r.PhoneNumber) ∧
    (∀ v, req.City = some v → v ≠ "" → (described.updatedRecord req r).City = v) ∧
    ((req.City = none ∨ req.City = some "") → (described.updatedRecord req r).City = r.City) ∧
    (∀ v, req.FaxNumber = some v → v ≠ "" → (described.updatedRecord req r).FaxNumber = v) ∧
    ((req.FaxNumber = none ∨ req.FaxNumber = some "") →
      (described.updatedRecord req r).FaxNumber = r.FaxNumber) ∧
    (∀ x ∈ t, x.Id ≠ r.Id →
      x ∈ (services.UpdateBranchOfficeById (repos.branchOfficeRepo now) t r.Id req).2) := by
  obtain ⟨b, hb, hassign, hsvc⟩ := update_entity req r
  have htable : t.map (fun x => if x.Id == r.Id && x.DeletedAt.isNone then repos.assign b x else x)
      = t.map (fun x => if x.Id = r.Id then described.updatedRecord req r else x) := by
    apply List.map_congr_left
    intro x hx
    by_cases hxi : x.Id = r.Id
    · obtain rfl := wf_unique hwf hx hr hxi
      simp [hlive, hassign]
    · simp [hxi]
  have hwf1 : Table.wf
      (t.map (fun x => if x.Id = r.Id then described.updatedRecord req r else x)) := by
    apply map_keepId_wf hwf
    intro x
    by_cases hxi : x.Id = r.Id
    · simp [hxi, described.updatedRecord]
    · simp [hxi]
  have hmem : described.updatedRecord req r ∈
      t.map (fun x => if x.Id = r.Id then described.updatedRecord req r else x) :=
    List.mem_map.2 ⟨r, hr, by simp⟩
  have hget : repos.GetBranchOfficeById
      (t.map (fun x => if x.Id = r.Id then described.updatedRecord req r else x)) r.Id false
      = (some (described.updatedRecord req r), none) := by
    have h := @getById_found _ hwf1 _ hmem false
      (by simp [gorm.visible, described.updatedRecord, hlive])
    simpa [described.updatedRecord] using h
  have hmain : services.UpdateBranchOfficeById (repos.branchOfficeRepo now) t r.Id req =
      ((some (described.updatedRecord req r), none),
        t.map (fun x => if x.Id = r.Id then described.updatedRecord req r else x)) := by
    have hrepo : (repos.branchOfficeRepo now).UpdateBranchOfficeById t r.Id b
        = repos.UpdateBranchOfficeById t r.Id b := rfl
    rw [hsvc, hrepo, repo_update_unkeyed t r.Id b hb, htable, hget]
  refine ⟨hmain, rfl, rfl, rfl, ?_, ?_, ?_, ?_, ?_, ?_, ?_, ?_, ?_, ?_, ?_⟩
  · intro v hv hne
    simp [described.updatedRecord, described.updatedField, hv, hne]
  · rintro (h | h) <;> simp [described.updatedRecord, described.updatedField, h]
  · intro v hv hne
    simp [described.updatedRecord, described.updatedField, hv, hne]
  · rintro (h | h) <;> simp [described.updatedRecord, described.updatedField, h]
  · intro v hv hne
    simp [described.updatedRecord, described.updatedField, hv, hne]
  · rintro (h | h) <;> simp [described.updatedRecord, described.updatedField, h]
  · intro v hv hne
    simp [described.updatedRecord, described.updatedField, hv, hne]
  · rintro (h | h) <;> simp [described.updatedRecord, described.updatedField, h]
  · intro v hv hne
    simp [described.updatedRecord, described.updatedField, hv, hne]
  · rintro (h | h) <;> simp [described.updatedRecord, described.updatedField, h]
  · intro x hx hxi
    rw [hmain]
    exact List.mem_map.2 ⟨x, hx, by simp [hxi]⟩

/-- Witness for C4: renaming row `b1` of the sample table with an empty address supplied. -/
theorem update_changes_only_supplied_fields_witness :
    Table.wf [sample.north, sample.south] ∧ sample.north ∈ [sample.north, sample.south] ∧
    sample.north.DeletedAt = none ∧
    services.UpdateBranchOfficeById (repos.branchOfficeRepo sample.noon)
        [sample.north, sample.south] sample.north.Id sample.rename =
      ((some { sample.north with Name := "Northern" }, none),
        [{ sample.north with Name := "Northern" }, sample.south]) :=
  ⟨by decide, by decide, rfl,
    (update_changes_only_supplied_fields sample.noon [sample.north, sample.south] sample.north
      sample.rename (by decide) (by decide) rfl).1.trans (by decide)⟩

/-! ## Create -/

/-- C5: for a create request whose id no row of the table carries (soft-deleted rows
included), the create succeeds, and the lookup by the request's id right afterwards returns
the stored record: its id, name, address, phoneNumber, faxNumber and city are the
request's, its deletedAt is null, and the response resource carries the same six values. -/
theorem create_then_get (now : Time) (t : Table) (req : dto.CreateBranchOfficeRequest)
    (hfresh : ∀ x ∈ t, x.Id ≠ req.Id) :
    ∃ row : BranchOffice,
      services.CreateBranchOffice (repos.branchOfficeRepo now) t req
        = ((some row, none), t ++ [row]) ∧
      services.GetBranchOfficeById (repos.branchOfficeRepo now)
          (services.CreateBranchOffice (repos.branchOfficeRepo now) t req).2 req.Id
        = (some row, none) ∧
      row.Id = req.Id ∧ row.Name = req.Name ∧ row.Address = req.Address ∧
      row.PhoneNumber = req.PhoneNumber ∧ row.FaxNumber = req.FaxNumber ∧
      row.City = req.City ∧ row.DeletedAt = none ∧
      row.ToDtoResponse.Id = req.Id ∧ row.ToDtoResponse.Name = req.Name ∧
      row.ToDtoResponse.Address = req.Address ∧
      row.ToDtoResponse.PhoneNumber = req.PhoneNumber ∧
      row.ToDtoResponse.FaxNumber = req.FaxNumber ∧ row.ToDtoResponse.City = req.City := by
  have hany : t.any (fun r => r.Id == req.Id) = false := by
    rw [List.any_eq_false]
    intro x hx
    simpa using hfresh x hx
  have hcreate : services.CreateBranchOffice (repos.branchOfficeRepo now) t req =
      ((some { Id := req.Id, Name := req.Name, Address := req.Address,
               PhoneNumber := req.PhoneNumber, FaxNumber := req.FaxNumber, City := req.City,
               CreatedAt := now, DeletedAt := none }, none),
        t ++ [{ Id := req.Id, Name := req.Name, Address := req.Address,
                PhoneNumber := req.PhoneNumber, FaxNumber := req.FaxNumber, City := req.City,
                CreatedAt := now, DeletedAt := none }]) := by
    simp [services.CreateBranchOffice, repos.branchOfficeRepo, repos.CreateBranchOffice,
      models.BranchOffice.empty, hany, Time.IsZero]
  refine ⟨_, hcreate, ?_, rfl, rfl, rfl, rfl, rfl, rfl, rfl, rfl, rfl, rfl, rfl, rfl, rfl⟩
  rw [hcreate]
  have hfil : t.filter (fun r => r.Id == req.Id && r.DeletedAt.isNone) = [] := by
    rw [List.filter_eq_nil_iff]
    intro x hx
    simp [hfresh x hx]
  simp [services.GetBranchOfficeById, repos.branchOfficeRepo, repos.GetBranchOfficeById,
    List.filter_append, hfil, gorm.visible, gorm.First, gorm.leastId]

/-- Witness for C5: creating `b4` in the sample table. -/
theorem create_then_get_witness :
    (∀ x ∈ [sample.north, sample.east], x.Id ≠ sample.newWest.Id) ∧
    ∃ row : BranchOffice,
      services.CreateBranchOffice (repos.branchOfficeRepo sample.noon)
          [sample.north, sample.east] sample.newWest
        = ((some row, none), [sample.north, sample.east] ++ [row]) ∧
      row.Name = "West" :=
  ⟨by decide,
    (create_then_get sample.noon [sample.north, sample.east] sample.newWest (by decide)).imp
      (fun _ h => ⟨h.1, h.2.2.2.1⟩)⟩

/-! ## The uniqueness check of the create validator -/

/-- The existence check the create validator runs: it is true exactly when some live row
carries the name. -/
theorem existsByName (now : Time) (t : Table) (name : String) :
    services.ExistsBranchOfficeByField (repos.branchOfficeRepo now) t
        { Field := "name", Value := name, ExceptId := none, WithTrash := none }
      = (t.any (fun x => x.Name == name && x.DeletedAt.isNone), none) := by
  have hcol : gorm.column "name" = some (fun r => r.Name) := by
    simp [gorm.column]
  have hlookup : (repos.branchOfficeRepo now).GetBranchOfficeByField t "name" name false
      = gorm.First (t.filter (fun x => x.Name == name && x.DeletedAt.isNone)) := by
    show repos.GetBranchOfficeByField t "name" name false = _
    simp [repos.GetBranchOfficeByField, hcol, gorm.visible]
  unfold services.ExistsBranchOfficeByField
  simp only [hlookup]
  rcases First_cases (t.filter (fun x => x.Name == name && x.DeletedAt.isNone)) with
    ⟨hnil, hres⟩ | ⟨m, hm, hres⟩
  · rw [hres]
    have : t.any (fun x => x.Name == name && x.DeletedAt.isNone) = false := by
      rw [List.any_eq_false]
      intro x hx
      have := (List.filter_eq_nil_iff.1 hnil) x hx
      simpa using this
    simp [this, GoError.isRecordNotFound]
  · rw [hres]
    have : t.any (fun x => x.Name == name && x.DeletedAt.isNone) = true := by
      rw [List.any_eq_true]
      exact ⟨m, (List.mem_filter.1 hm).1, (List.mem_filter.1 hm).2⟩
    simp [this]

theorem validateCreateStruct_of_valid {req : dto.CreateBranchOfficeRequest}
    (hv : validators.structurallyValid req) : validators.validateCreateStruct req = none := by
  obtain ⟨h1, h2, h3, h4, h5, h6⟩ := hv
  simp [validators.validateCreateStruct, h1, h2, h3, h4, h5, h6]

/-- The create validator on a structurally valid request. -/
theorem validateCreate_of_valid (now : Time) (t : Table) {req : dto.CreateBranchOfficeRequest}
    (hv : validators.structurallyValid req) :
    validators.ValidateCreateBranchOfficeRequest (repos.branchOfficeRepo now) t (.ok req) =
      if t.any (fun x => x.Name == req.Name && x.DeletedAt.isNone) then
        (none, some (GoError.DBValidationError "name" "exists"))
      else (some req, none) := by
  have hname : req.Name ≠ "" := hv.2.1
  simp only [validators.ValidateCreateBranchOfficeRequest, validateCreateStruct_of_valid hv,
    existsByName, hname, ne_eq, not_false_eq_true, if_true]

/-- C6: on a structurally valid create request, the validator fails with the field-level
error on `name` with tag `exists` exactly when some live record has the request's name;
when every record with that name is soft-deleted (or there is none) it returns the request
unchanged; and it has no other outcome. -/
theorem validateCreate_name_exists_iff (now : Time) (t : Table)
    (req : dto.CreateBranchOfficeRequest) (hv : validators.structurallyValid req) :
    (validators.ValidateCreateBranchOfficeRequest (repos.branchOfficeRepo now) t (.ok req)
        = (none, some (GoError.DBValidationError "name" "exists"))
      ↔ ∃ x ∈ t, x.DeletedAt = none ∧ x.Name = req.Name) ∧
    ((∀ x ∈ t, x.Name = req.Name → x.DeletedAt ≠ none) →
      validators.ValidateCreateBranchOfficeRequest (repos.branchOfficeRepo now) t (.ok req)
        = (some req, none)) ∧
    (validators.ValidateCreateBranchOfficeRequest (repos.branchOfficeRepo now) t (.ok req)
        = (none, some (GoError.DBValidationError "name" "exists")) ∨
      validators.ValidateCreateBranchOfficeRequest (repos.branchOfficeRepo now) t (.ok req)
        = (some req, none)) := by
  rw [validateCreate_of_valid now t hv]
  cases h : t.any (fun x => x.Name == req.Name && x.DeletedAt.isNone)
  · have hno : ∀ x ∈ t, x.Name = req.Name → x.DeletedAt ≠ none := by
      intro x hx hxn hxd
      have := (List.any_eq_false.1 h) x hx
      simp [hxn, hxd] at this
    refine ⟨?_, fun _ => by simp, Or.inr (by simp)⟩
    constructor
    · intro hc
      simp at hc
    · rintro ⟨x, hx, hxd, hxn⟩
      exact absurd hxd (hno x hx hxn)
  · obtain ⟨x, hx, hxp⟩ := List.any_eq_true.1 h
    simp only [Bool.and_eq_true, beq_iff_eq, Option.isNone_iff_eq_none] at hxp
    refine ⟨?_, fun hall => absurd hxp.2 (hall x hx hxp.1), Or.inl (by simp)⟩
    constructor
    · intro _
      exact ⟨x, hx, hxp.2, hxp.1⟩
    · intro _
      simp

/-- Witness for C6: a request reusing the name of a soft-deleted row passes validation. -/
theorem validateCreate_name_exists_iff_witness :
    validators.structurallyValid sample.newEast ∧
    validators.ValidateCreateBranchOfficeRequest (repos.branchOfficeRepo sample.noon)
        [sample.north, sample.east] (.ok sample.newEast)
      = (some sample.newEast, none) :=
  ⟨by decide,
    (validateCreate_name_exists_iff sample.noon [sample.north, sample.east] sample.newEast
      (by decide)).2.1 (by decide)⟩

/-! ## Name uniqueness over the routes -/

theorem reachable_run (now : Time) (reqs : List router.Request) :
    ∀ t : Table, router.Reachable t → router.Reachable (router.run now t reqs) := by
  induction reqs with
  | nil => exact fun _ h => h
  | cons req rest ih => exact fun t h => ih _ (router.Reachable.step now req h)

/-- C7 as stated fails: request sequences from the empty table end in a table with two
live records named `North`.  One creates `b1`, soft-deletes it, creates `b2` under the same
name and restores `b1`; another creates `b1` and `b2` and renames `b2` by an update; and two
create requests for `b1` and `b2` under the same name, served at overlapping times, both
pass validation on the empty table and are both inserted. -/
theorem name_uniqueness_broken_by_restore_and_update :
    router.Reachable (router.run sample.noon [] sample.restoreAfterReuse) ∧
    ¬ router.liveNamesUnique (router.run sample.noon [] sample.restoreAfterReuse) ∧
    (router.run sample.noon [] sample.restoreAfterReuse).map (fun r => (r.Id, r.Name, r.DeletedAt))
      = [("b1", "North", none), ("b2", "North", none)] ∧
    router.Reachable (router.run sample.noon [] sample.renameOntoOther) ∧
    ¬ router.liveNamesUnique (router.run sample.noon [] sample.renameOntoOther) ∧
    (router.run sample.noon [] sample.renameOntoOther).map (fun r => (r.Id, r.Name, r.DeletedAt))
      = [("b1", "North", none), ("b2", "North", none)] ∧
    ¬ router.liveNamesUnique
        (router.overlappingCreates sample.noon [] sample.newNorth sample.newNorthAgain) ∧
    (router.overlappingCreates sample.noon [] sample.newNorth sample.newNorthAgain).map
        (fun r => (r.Id, r.Name, r.DeletedAt))
      = [("b1", "North", none), ("b2", "North", none)] :=
  ⟨reachable_run _ _ _ router.Reachable.empty, by decide, by decide,
    reachable_run _ _ _ router.Reachable.empty, by decide, by decide, by decide, by decide⟩

theorem structurallyValid_of_validateCreateStruct {req : dto.CreateBranchOfficeRequest}
    (h : validators.validateCreateStruct req = none) : validators.structurallyValid req := by
  unfold validators.validateCreateStruct at h
  unfold validators.structurallyValid
  by_contra hc
  apply absurd h
  by_cases h1 : req.Id = "" <;> by_cases h2 : req.Name = "" <;> by_cases h3 : req.Address = "" <;>
    by_cases h4 : req.PhoneNumber = "" <;> by_cases h5 : req.City = "" <;>
    by_cases h6 : req.FaxNumber = "" <;> simp_all

theorem service_create (now : Time) (t : Table) (req : dto.CreateBranchOfficeRequest) :
    services.CreateBranchOffice (repos.branchOfficeRepo now) t req =
      if t.any (fun r => r.Id == req.Id) then ((none, some gorm.duplicateKey), t)
      else
        ((some { Id := req.Id, Name := req.Name, Address := req.Address,
                 PhoneNumber := req.PhoneNumber, FaxNumber := req.FaxNumber, City := req.City,
                 CreatedAt := now, DeletedAt := none }, none),
          t ++ [{ Id := req.Id, Name := req.Name, Address := req.Address,
                  PhoneNumber := req.PhoneNumber, FaxNumber := req.FaxNumber, City := req.City,
                  CreatedAt := now, DeletedAt := none }]) := by
  cases h : t.any (fun r => r.Id == req.Id) <;>
    simp [services.CreateBranchOffice, repos.branchOfficeRepo, repos.CreateBranchOffice,
      models.BranchOffice.empty, Time.IsZero, List.any_eq_false.1, h]

/-- The table a create request leaves: the old one, or the old one with one more live row
whose name no live row carried. -/
theorem create_route_table (now : Time) (t : Table)
    (bound : Except GoError dto.CreateBranchOfficeRequest) :
    (controllers.CreateBranchOffice (repos.branchOfficeRepo now) t bound).2 = t ∨
    ∃ row : BranchOffice, row.DeletedAt = none ∧
      (∀ x ∈ t, x.DeletedAt = none → x.Name ≠ row.Name) ∧
      (controllers.CreateBranchOffice (repos.branchOfficeRepo now) t bound).2 = t ++ [row] := by
  cases bound with
  | error e => exact Or.inl rfl
  | ok req =>
    cases hs : validators.validateCreateStruct req with
    | some err =>
      left
      simp [controllers.CreateBranchOffice, validators.ValidateCreateBranchOfficeRequest, hs]
    | none =>
      have hv := structurallyValid_of_validateCreateStruct hs
      cases hany : t.any (fun x => x.Name == req.Name && x.DeletedAt.isNone) with
      | true =>
        left
        simp only [controllers.CreateBranchOffice, validateCreate_of_valid now t hv, hany,
          if_true]
      | false =>
        cases hid : t.any (fun r => r.Id == req.Id) with
        | true =>
          left
          simp only [controllers.CreateBranchOffice, validateCreate_of_valid now t hv, hany,
            service_create, hid, if_true, Bool.false_eq_true, if_false]
        | false =>
          right
          refine ⟨{ Id := req.Id, Name := req.Name, Address := req.Address,
                    PhoneNumber := req.PhoneNumber, FaxNumber := req.FaxNumber,
                    City := req.City, CreatedAt := now, DeletedAt := none }, rfl, ?_, ?_⟩
          · intro x hx hxd hxn
            have := (List.any_eq_false.1 hany) x hx
            simp [hxd] at this
            exact this hxn
          · simp only [controllers.CreateBranchOffice, validateCreate_of_valid now t hv, hany,
              service_create, hid, Bool.false_eq_true, if_false]

/-- The table a soft-delete request leaves: each row is kept as it is or marked deleted. -/
theorem softDelete_route_table (now : Time) (t : Table) (id : String) :
    ∃ f : BranchOffice → BranchOffice,
      (∀ x, f x = x ∨ (f x).DeletedAt.isNone = false) ∧
      (controllers.SoftDeleteBranchOffice (repos.branchOfficeRepo now) t id).2 = t.map f := by
  have hid : ∃ f : BranchOffice → BranchOffice,
      (∀ x, f x = x ∨ (f x).DeletedAt.isNone = false) ∧ t = t.map f :=
    ⟨fun x => x, fun _ => Or.inl rfl, by simp⟩
  have hrepo : services.SoftDeleteBranchOfficeById (repos.branchOfficeRepo now) t id
      = repos.SoftDeleteBranchOfficeById now t id := rfl
  unfold controllers.SoftDeleteBranchOffice
  rcases h : services.ExistsBranchOfficeById (repos.branchOfficeRepo now) t id false with
    ⟨b, e⟩
  cases e with
  | some err => simpa using hid
  | none =>
    cases b with
    | false => simpa using hid
    | true =>
      by_cases hempty : id = ""
      · subst hempty
        simpa [hrepo, repos.SoftDeleteBranchOfficeById] using hid
      · refine ⟨fun r => if r.Id == id && r.DeletedAt.isNone then { r with DeletedAt := some now }
            else r, ?_, ?_⟩
        · intro x
          by_cases hx : (x.Id == id && x.DeletedAt.isNone) = true
          · right
            simp [hx]
          · left
            simp [hx]
        · simp [hrepo, repos.SoftDeleteBranchOfficeById, hempty]

/-- The table a hard-delete request leaves is a sublist of the old one. -/
theorem hardDelete_route_table (now : Time) (t : Table) (id : String) :
    List.Sublist (controllers.HardDeleteBranchOffice (repos.branchOfficeRepo now) t id).2 t := by
  have hrepo : services.HardDeleteBranchOfficeById (repos.branchOfficeRepo now) t id
      = repos.HardDeleteBranchOfficeById t id := rfl
  unfold controllers.HardDeleteBranchOffice
  rcases h : services.ExistsBranchOfficeById (repos.branchOfficeRepo now) t id true with
    ⟨b, e⟩
  cases e with
  | some err => simp
  | none =>
    cases b with
    | false => simp
    | true =>
      by_cases hempty : id = ""
      · subst hempty
        simp [hrepo, repos.HardDeleteBranchOfficeById]
      · simp [hrepo, repos.HardDeleteBranchOfficeById, hempty]

theorem liveNames_sublist_of_marking (f : BranchOffice → BranchOffice)
    (hf : ∀ x, f x = x ∨ (f x).DeletedAt.isNone = false) (t : Table) :
    List.Sublist
      (((t.map f).filter (fun r => r.DeletedAt.isNone)).map (fun r => r.Name))
      ((t.filter (fun r => r.DeletedAt.isNone)).map (fun r => r.Name)) := by
  induction t with
  | nil => simp
  | cons x xs ih =>
    rcases hf x with hx | hx
    · simp only [List.map_cons, hx]
      by_cases hl : x.DeletedAt.isNone = true
      · simp only [List.filter_cons, hl, if_true, List.map_cons]
        exact ih.cons₂ _
      · simp only [List.filter_cons, hl]
        exact ih
    · simp only [List.map_cons, List.filter_cons, hx]
      by_cases hl : x.DeletedAt.isNone = true
      · simp only [hl, if_true, List.map_cons]
        exact List.Sublist.cons _ ih
      · simp only [hl]
        exact ih

/-- C7, for the routes that keep it, served one at a time: in every table reachable from
the empty table through create, soft-delete and hard-delete requests, each handler running
to its end before the next request is served, no two records that are not soft-deleted have
the same name. -/
theorem name_uniqueness_without_update_and_restore (t : Table)
    (h : router.ReachableByCreateAndDelete t) : router.liveNamesUnique t := by
  induction h with
  | empty => simp [router.liveNamesUnique]
  | @create t now bound _ ih =>
    show router.liveNamesUnique
      (controllers.CreateBranchOffice (repos.branchOfficeRepo now) t bound).2
    rcases create_route_table now t bound with heq | ⟨row, hlive, hfresh, heq⟩
    · rw [heq]
      exact ih
    · rw [heq]
      unfold router.liveNamesUnique at *
      simp only [List.filter_append, List.map_append, List.filter_cons, hlive,
        Option.isNone_none, if_true, List.filter_nil, List.map_cons, List.map_nil]
      rw [List.nodup_append]
      refine ⟨ih, List.nodup_singleton _, ?_⟩
      intro a ha hb
      simp only [List.mem_singleton] at hb
      obtain ⟨x, hx, hxa⟩ := List.mem_map.1 ha
      have hx1 := List.mem_filter.1 hx
      exact hfresh x hx1.1 (by simpa using hx1.2) (hxa.trans hb)
  | @softDelete t now id _ ih =>
    show router.liveNamesUnique
      (controllers.SoftDeleteBranchOffice (repos.branchOfficeRepo now) t id).2
    obtain ⟨f, hf, heq⟩ := softDelete_route_table now t id
    rw [heq]
    exact List.Nodup.sublist (liveNames_sublist_of_marking f hf t) ih
  | @hardDelete t now id _ ih =>
    show router.liveNamesUnique
      (controllers.HardDeleteBranchOffice (repos.branchOfficeRepo now) t id).2
    exact List.Nodup.sublist
      (((hardDelete_route_table now t id).filter _).map _) ih

theorem reuseAfterDelete_reachable :
    router.ReachableByCreateAndDelete (router.run sample.noon [] sample.reuseAfterDelete) :=
  router.ReachableByCreateAndDelete.hardDelete _ _
    (router.ReachableByCreateAndDelete.create _ _
      (router.ReachableByCreateAndDelete.create _ _
        (router.ReachableByCreateAndDelete.create _ _
          (router.ReachableByCreateAndDelete.softDelete _ _
            (router.ReachableByCreateAndDelete.create _ _
              router.ReachableByCreateAndDelete.empty)))))

/-- Witness for C7: create `b1`, soft-delete it, create `b2` under the same name, a third
create under that name (refused), create and hard-delete `b4`; the table ends with the
soft-deleted `b1` and the live `b2`, both named `North`. -/
theorem name_uniqueness_without_update_and_restore_witness :
    router.ReachableByCreateAndDelete (router.run sample.noon [] sample.reuseAfterDelete) ∧
    (router.run sample.noon [] sample.reuseAfterDelete).map
        (fun r => (r.Id, r.Name, r.DeletedAt.isSome))
      = [("b1", "North", true), ("b2", "North", false)] ∧
    (router.serve sample.noon
        (router.run sample.noon [] [.create (.ok sample.newNorth), .softDelete "b1",
          .create (.ok sample.newNorthAgain)])
        (.create (.ok sample.newNorthThird))).1.status = controllers.StatusUnprocessableEntity ∧
    router.liveNamesUnique (router.run sample.noon [] sample.reuseAfterDelete) :=
  ⟨reuseAfterDelete_reachable, by decide, by decide,
    name_uniqueness_without_update_and_restore _ reuseAfterDelete_reachable⟩

/-! ## Existence checks over any repository -/

/-- C8: for every repository, store and input, with `out` the repository lookup of the
value made with `withTrash = false` when `WithTrash` is nil and `*WithTrash` otherwise:
the check returns `(true, nil)` exactly when `out` is a record without error and `ExceptId`
is nil or differs from the record's id; it returns `(false, nil)` when `out` fails with
record-not-found, when the record's id equals `*ExceptId`, and when `out` is nil without
error; and it returns `(false, err)` when `out` fails with any other error `err`. -/
theorem existsByField_outcomes {σ : Type} (repo : BranchOfficeRepoInterface σ) (s : σ)
    (input : ExistsBranchOfficeByFieldInput) :
    (services.ExistsBranchOfficeByField repo s input = (true, none) ↔
      ∃ b, repo.GetBranchOfficeByField s input.Field input.Value (input.WithTrash.getD false)
          = (some b, none) ∧
        (input.ExceptId = none ∨ input.ExceptId ≠ some b.Id)) ∧
    (∀ p e, repo.GetBranchOfficeByField s input.Field input.Value (input.WithTrash.getD false)
        = (p, some e) → e.isRecordNotFound = true →
      services.ExistsBranchOfficeByField repo s input = (false, none)) ∧
    (∀ b, repo.GetBranchOfficeByField s input.Field input.Value (input.WithTrash.getD false)
        = (some b, none) → input.ExceptId = some b.Id →
      services.ExistsBranchOfficeByField repo s input = (false, none)) ∧
    (repo.GetBranchOfficeByField s input.Field input.Value (input.WithTrash.getD false)
        = (none, none) →
      services.ExistsBranchOfficeByField repo s input = (false, none)) ∧
    (∀ p e, repo.GetBranchOfficeByField s input.Field input.Value (input.WithTrash.getD false)
        = (p, some e) → e.isRecordNotFound = false →
      services.ExistsBranchOfficeByField repo s input = (false, some e)) := by
  have hflag : (match input.WithTrash with
      | some w => w
      | none => false) = input.WithTrash.getD false := by
    cases input.WithTrash <;> rfl
  unfold services.ExistsBranchOfficeByField
  simp only [hflag]
  rcases hout : repo.GetBranchOfficeByField s input.Field input.Value
      (input.WithTrash.getD false) with ⟨p, e⟩
  cases e with
  | some err =>
    cases hnf : err.isRecordNotFound <;> simp [hnf]
  | none =>
    cases p with
    | none => simp
    | some b =>
      by_cases hex : input.ExceptId = none ∨ input.ExceptId ≠ some b.Id
      · simp only [hex, if_true]
        refine ⟨⟨fun _ => ⟨b, rfl, hex⟩, fun _ => by trivial⟩, ?_, ?_, ?_, ?_⟩
        · intro p e h
          simp at h
        · intro c h hc
          simp only [Prod.mk.injEq, Option.some.injEq, and_true] at h
          subst h
          rcases hex with h1 | h1
          · rw [h1] at hc
            cases hc
          · exact absurd hc h1
        · intro h
          simp at h
        · intro p e h
          simp at h
      · simp only [hex, if_false]
        refine ⟨⟨fun h => by simp at h, ?_⟩, ?_, fun _ _ _ => by trivial,
          fun _ => by trivial, ?_⟩
        · rintro ⟨c, h, hc⟩
          simp only [Prod.mk.injEq, Option.some.injEq, and_true] at h
          subst h
          exact absurd hc hex
        · intro p e h
          simp at h
        · intro p e h
          simp at h

/-- C9 fails on the code: rows `b1` and `b2` are both live and both named `North`; asked
whether a record other than `b1` has the name `North`, the check answers false, because the
lookup returns the row with the least id, `b1` itself, although `b2` has the name. -/
theorem existsByField_misses_other_record :
    Table.wf [sample.north, sample.northTwin] ∧
    services.ExistsBranchOfficeByField (repos.branchOfficeRepo sample.noon)
        [sample.north, sample.northTwin] sample.northExceptB1 = (false, none) ∧
    (∃ x ∈ [sample.north, sample.northTwin],
      gorm.visible false x = true ∧ some x.Id ≠ sample.northExceptB1.ExceptId ∧
        x.Name = sample.northExceptB1.Value) ∧
    repos.GetBranchOfficeByField [sample.north, sample.northTwin] "name" "North" false
      = (some sample.north, none) := by
  decide

/-- C10: for every repository, store, id and flag: the check returns `(true, nil)` when the
lookup returns a record without error, `(false, nil)` when the lookup fails with
record-not-found (or returns nil without error), and `(false, err)` with the same `err`
when it fails with any other error; it never returns true together with an error. -/
theorem existsById_outcomes {σ : Type} (repo : BranchOfficeRepoInterface σ) (s : σ)
    (id : String) (withTrash : Bool) :
    (∀ b, repo.GetBranchOfficeById s id withTrash = (some b, none) →
      services.ExistsBranchOfficeById repo s id withTrash = (true, none)) ∧
    (∀ p e, repo.GetBranchOfficeById s id withTrash = (p, some e) →
      e.isRecordNotFound = true →
      services.ExistsBranchOfficeById repo s id withTrash = (false, none)) ∧
    (repo.GetBranchOfficeById s id withTrash = (none, none) →
      services.ExistsBranchOfficeById repo s id withTrash = (false, none)) ∧
    (∀ p e, repo.GetBranchOfficeById s id withTrash = (p, some e) →
      e.isRecordNotFound = false →
      services.ExistsBranchOfficeById repo s id withTrash = (false, some e)) ∧
    (∀ e, services.ExistsBranchOfficeById repo s id withTrash ≠ (true, some e)) := by
  unfold services.ExistsBranchOfficeById
  rcases hout : repo.GetBranchOfficeById s id withTrash with ⟨p, e⟩
  cases e with
  | some err => cases hnf : err.isRecordNotFound <;> simp [hnf]
  | none => cases p <;> simp

/-! ## Keyword search -/

theorem toLower_literal {c : Char}
    (h : c ≠ Char.ofNat 37 ∧ c ≠ Char.ofNat 95 ∧ c ≠ Char.ofNat 92) :
    c.toLower ≠ Char.ofNat 37 ∧ c.toLower ≠ Char.ofNat 95 ∧ c.toLower ≠ Char.ofNat 92 := by
  unfold Char.toLower
  by_cases hc : c.toNat ≥ 65 ∧ c.toNat ≤ 90
  · simp only [hc, and_self, if_true]
    obtain ⟨h1, h2⟩ := hc
    generalize c.toNat = n at h1 h2
    interval_cases n <;> decide
  · simp only [hc, if_false]
    exact h

theorem likeAny_true_iff (f : List Char → Bool) (s : List Char) :
    gorm.likeAny f s = true ↔ ∃ t, t <:+ s ∧ f t = true := by
  induction s with
  | nil => simp [gorm.likeAny]
  | cons c s ih =>
    simp only [gorm.likeAny, Bool.or_eq_true, ih, List.suffix_cons_iff]
    constructor
    · rintro (h | ⟨t, ht, hf⟩)
      · exact ⟨c :: s, Or.inl rfl, h⟩
      · exact ⟨t, Or.inr ht, hf⟩
    · rintro ⟨t, (rfl | ht), hf⟩
      · exact Or.inl hf
      · exact Or.inr ⟨t, ht, hf⟩

theorem likeMatch_cons (c : Char) (p s : List Char) :
    gorm.likeMatch (c :: p) s =
      if c = Char.ofNat 37 then gorm.likeAny (gorm.likeMatch p) s
      else if c = Char.ofNat 95 then
        match s with
        | [] => false
        | _ :: s1 => gorm.likeMatch p s1
      else if c = Char.ofNat 92 then
        match p, s with
        | e :: p1, d :: s1 => e == d && gorm.likeMatch p1 s1
        | _, _ => false
      else
        match s with
        | [] => false
        | d :: s1 => c == d && gorm.likeMatch p s1 := by
  cases p <;> cases s <;> rfl

/-- A pattern of literal characters followed by `%` matches the texts it is a prefix of. -/
theorem likeMatch_literal_then_any (p : List Char)
    (hp : ∀ c ∈ p, c ≠ Char.ofNat 37 ∧ c ≠ Char.ofNat 95 ∧ c ≠ Char.ofNat 92) (s : List Char) :
    gorm.likeMatch (p ++ [Char.ofNat 37]) s = p.isPrefixOf s := by
  induction p generalizing s with
  | nil =>
    have : gorm.likeAny (gorm.likeMatch []) s = true := by
      rw [likeAny_true_iff]
      exact ⟨[], List.nil_suffix, rfl⟩
    rw [List.nil_append, likeMatch_cons, if_pos rfl, this]
    cases s <;> rfl
  | cons c p ih =>
    obtain ⟨h1, h2, h3⟩ := hp c (List.mem_cons_self _ _)
    have ih1 := ih (fun d hd => hp d (List.mem_cons_of_mem _ hd))
    rw [List.cons_append, likeMatch_cons, if_neg h1, if_neg h2, if_neg h3]
    cases s with
    | nil => rfl
    | cons d s1 =>
      simp only [ih1, List.isPrefixOf]

/-- For a keyword of literal characters, `text ILIKE '%keyword%'` is case-insensitive
containment. -/
theorem ilike_literal_iff (text keyword : String) (hk : described.literal keyword) :
    gorm.ilike text ("%" ++ keyword ++ "%") = true ↔ described.containsFold text keyword := by
  have hp : ∀ c ∈ keyword.toList.map Char.toLower,
      c ≠ Char.ofNat 37 ∧ c ≠ Char.ofNat 95 ∧ c ≠ Char.ofNat 92 := by
    intro c hc
    obtain ⟨d, hd, rfl⟩ := List.mem_map.1 hc
    exact toLower_literal (hk d hd)
  have hpat : ("%" ++ keyword ++ "%").toList.map Char.toLower
      = Char.ofNat 37 :: (keyword.toList.map Char.toLower ++ [Char.ofNat 37]) := by
    simp only [String.toList, String.data_append, List.map_append]
    rfl
  unfold gorm.ilike described.containsFold
  rw [hpat, likeMatch_cons, if_pos rfl, likeAny_true_iff, List.infix_iff_prefix_suffix]
  constructor
  · rintro ⟨t, ht, hf⟩
    rw [likeMatch_literal_then_any _ hp] at hf
    exact ⟨t, List.isPrefixOf_iff_prefix.1 hf, ht⟩
  · rintro ⟨t, hpre, hsuf⟩
    refine ⟨t, hsuf, ?_⟩
    rw [likeMatch_literal_then_any _ hp]
    exact List.isPrefixOf_iff_prefix.2 hpre

/-- List and count are determined by the selected rows and, for the list, `Limit` and
`Page`. -/
theorem list_count_congr {t1 t2 : Table} {f1 f2 : GetBranchOfficeListFilter}
    (hsel : repos.selectRows t1 f1 = repos.selectRows t2 f2)
    (hl : f1.Limit = f2.Limit) (hp : f1.Page = f2.Page) :
    repos.GetBranchOfficeList t1 f1 = repos.GetBranchOfficeList t2 f2 ∧
    repos.GetBranchOfficeCount t1 f1 = repos.GetBranchOfficeCount t2 f2 := by
  unfold repos.GetBranchOfficeList repos.GetBranchOfficeCount
  rw [hsel, hl, hp]
  exact ⟨rfl, rfl⟩

theorem keywordConditions_absent {filter : GetBranchOfficeListFilter}
    (h : filter.Fields = none ∨ filter.Fields = some [] ∨ filter.Keyword = none ∨
      filter.Keyword = some "") :
    repos.keywordConditions filter = .ok [] := by
  unfold repos.keywordConditions
  rcases h with h | h | h | h
  · rw [h]
  · rw [h]
    cases filter.Keyword <;> simp
  · rw [h]
    cases filter.Fields <;> rfl
  · rw [h]
    cases filter.Fields <;> simp

theorem keywordConditions_present {filter : GetBranchOfficeListFilter} {fields : List String}
    {keyword : String} (hf : filter.Fields = some fields) (hne : fields ≠ [])
    (hk : filter.Keyword = some keyword) (hkne : keyword ≠ "")
    (hcols : ∀ f ∈ fields, (gorm.column f).isSome = true) :
    repos.keywordConditions filter = .ok (fields.map (fun f r =>
      match gorm.column f with
      | some col => gorm.ilike (col r) ("%" ++ keyword ++ "%")
      | none => false)) := by
  unfold repos.keywordConditions
  rw [hf, hk]
  have hlen : fields.length > 0 := List.length_pos.2 hne
  have hfind : fields.find? (fun f => (gorm.column f).isNone) = none := by
    rw [List.find?_eq_none]
    intro f hfm
    have := hcols f hfm
    cases hc : gorm.column f <;> simp_all
  simp only [hlen, hkne, ne_eq, not_false_eq_true, and_self, if_true, hfind]

/-- A chain whose conditions each imply the final conjunct is the disjunction of its
conditions. -/
theorem orChainAnd_eq_any (conds : List (BranchOffice → Bool)) (last : Bool) (r : BranchOffice)
    (hne : conds ≠ []) (himp : ∀ c ∈ conds, c r = true → last = true) :
    repos.orChainAnd conds last r = conds.any (fun k => k r) := by
  induction conds with
  | nil => exact absurd rfl hne
  | cons c cs ih =>
    cases cs with
    | nil =>
      simp only [repos.orChainAnd, List.any_cons, List.any_nil, Bool.or_false]
      cases hc : c r
      · rfl
      · simp [himp c (List.mem_cons_self _ _) hc]
    | cons c2 cs2 =>
      have ih1 := ih (List.cons_ne_nil _ _)
        (fun k hk => himp k (List.mem_cons_of_mem _ hk))
      simp only [repos.orChainAnd, ih1, List.any_cons]

/-- Under the soft-delete scope, or with a single field, the `WHERE` clause is the
disjunction of the keyword conditions joined by `AND` with the trash clause. -/
theorem whereClause_grouped (filter : GetBranchOfficeListFilter)
    (conds : List (BranchOffice → Bool)) (r : BranchOffice) (hne : conds ≠ [])
    (h : filter.Status ≠ some constant.StatusDeleted ∨ ∃ c, conds = [c]) :
    repos.whereClause filter conds r
      = (conds.any (fun k => k r) && repos.statusCondition filter r) := by
  cases conds with
  | nil => exact absurd rfl hne
  | cons c cs =>
    cases cs with
    | nil =>
      simp only [repos.whereClause, List.any_cons, List.any_nil, Bool.or_false, Bool.and_self]
    | cons c2 cs2 =>
      have hs : filter.Status ≠ some constant.StatusDeleted := by
        rcases h with h | ⟨k, hk⟩
        · exact h
        · simp at hk
      have hchain := orChainAnd_eq_any (c :: c2 :: cs2)
        ((c :: c2 :: cs2).any (fun k => k r)) r (List.cons_ne_nil _ _)
        (fun k hk hkr => List.any_eq_true.2 ⟨k, hk, hkr⟩)
      simp only [repos.whereClause, hs, if_false, hchain, Bool.or_self,
        statusCondition_default hs]

theorem any_map_apply (g : String → BranchOffice → Bool) (r : BranchOffice)
    (fields : List String) :
    (fields.map g).any (fun k => k r) = fields.any (fun f => g f r) := by
  induction fields with
  | nil => rfl
  | cons f fs ih => simp only [List.map_cons, List.any_cons, ih]

theorem any_ilike_iff_someFieldContains (fields : List String) (keyword : String)
    (hlit : described.literal keyword) (r : BranchOffice) :
    fields.any (fun f =>
      match gorm.column f with
      | some col => gorm.ilike (col r) ("%" ++ keyword ++ "%")
      | none => false) = decide (described.someFieldContains fields keyword r) := by
  rw [Bool.eq_iff_iff, List.any_eq_true, decide_eq_true_iff]
  unfold described.someFieldContains described.fieldContains
  constructor
  · rintro ⟨f, hf, h⟩
    refine ⟨f, hf, ?_⟩
    cases hc : gorm.column f with
    | none => simp [hc] at h
    | some col =>
      simp only [hc] at h ⊢
      exact (ilike_literal_iff _ _ hlit).1 h
  · rintro ⟨f, hf, h⟩
    refine ⟨f, hf, ?_⟩
    cases hc : gorm.column f with
    | none => simp [hc] at h
    | some col =>
      simp only [hc] at h ⊢
      exact (ilike_literal_iff _ _ hlit).2 h

/-- C11, for keywords of literal characters over text columns, outside the deleted mode
with several fields: list and count add no keyword condition when `Fields` is nil or empty
or `Keyword` is nil or empty, and then return what the same filter with `Fields` and
`Keyword` nil returns; otherwise, when every listed field is a text column of the table,
the keyword holds none of `%`, `_` and the backslash, and the status is not `"deleted"` or
exactly one field is listed, they return what the filter without keyword returns on the
table cut down to the rows in which at least one of the listed fields contains the keyword
case-insensitively. -/
theorem keyword_condition_of_list_and_count (t : Table) (filter : GetBranchOfficeListFilter) :
    ((filter.Fields = none ∨ filter.Fields = some [] ∨ filter.Keyword = none ∨
        filter.Keyword = some "") →
      repos.GetBranchOfficeList t filter
        = repos.GetBranchOfficeList t { filter with Fields := none, Keyword := none } ∧
      repos.GetBranchOfficeCount t filter
        = repos.GetBranchOfficeCount t { filter with Fields := none, Keyword := none }) ∧
    (∀ (fields : List String) (keyword : String),
      filter.Fields = some fields → fields ≠ [] → filter.Keyword = some keyword →
      keyword ≠ "" → (∀ f ∈ fields, (gorm.column f).isSome = true) →
      described.literal keyword →
      (filter.Status ≠ some constant.StatusDeleted ∨ ∃ f, fields = [f]) →
      repos.GetBranchOfficeList t filter
        = repos.GetBranchOfficeList
            (t.filter (fun r => decide (described.someFieldContains fields keyword r)))
            { filter with Fields := none, Keyword := none } ∧
      repos.GetBranchOfficeCount t filter
        = repos.GetBranchOfficeCount
            (t.filter (fun r => decide (described.someFieldContains fields keyword r)))
            { filter with Fields := none, Keyword := none } ∧
      (repos.GetBranchOfficeCount t filter).2 = none) := by
  have hbare : repos.keywordConditions { filter with Fields := none, Keyword := none }
      = .ok [] := keywordConditions_absent (Or.inl rfl)
  have hstatus : repos.statusCondition { filter with Fields := none, Keyword := none }
      = repos.statusCondition filter := rfl
  have hbareWhere : repos.whereClause { filter with Fields := none, Keyword := none } []
      = repos.statusCondition filter := rfl
  constructor
  · intro h
    refine list_count_congr ?_ rfl rfl
    unfold repos.selectRows
    rw [keywordConditions_absent h, hbare]
    rfl
  · intro fields keyword hf hne hk hkne hcols hlit hmode
    have hsel : repos.selectRows t filter
        = repos.selectRows
            (t.filter (fun r => decide (described.someFieldContains fields keyword r)))
            { filter with Fields := none, Keyword := none } := by
      unfold repos.selectRows
      rw [keywordConditions_present hf hne hk hkne hcols, hbare]
      simp only [hbareWhere, List.filter_filter]
      congr 1
      apply List.filter_congr
      intro r _
      have hmode1 : filter.Status ≠ some constant.StatusDeleted ∨
          ∃ c, fields.map (fun f r =>
            match gorm.column f with
            | some col => gorm.ilike (col r) ("%" ++ keyword ++ "%")
            | none => false) = [c] := by
        rcases hmode with h | ⟨f, hfs⟩
        · exact Or.inl h
        · exact Or.inr ⟨_, by rw [hfs]; rfl⟩
      rw [whereClause_grouped filter _ r (by simpa using hne) hmode1, any_map_apply,
        any_ilike_iff_someFieldContains fields keyword hlit r, Bool.and_comm]
    refine ⟨(list_count_congr hsel rfl rfl).1, (list_count_congr hsel rfl rfl).2, ?_⟩
    unfold repos.GetBranchOfficeCount repos.selectRows
    rw [keywordConditions_present hf hne hk hkne hcols]

/-- Witness for C11: searching `POLE` in `name` and `address` of the sample table. -/
theorem keyword_condition_of_list_and_count_witness :
    sample.poleFilter.Fields = some ["name", "address"] ∧
    (∀ f ∈ ["name", "address"], (gorm.column f).isSome = true) ∧
    described.literal "POLE" ∧
    sample.poleFilter.Status ≠ some constant.StatusDeleted ∧
    repos.GetBranchOfficeCount [sample.north, sample.south, sample.east] sample.poleFilter
      = repos.GetBranchOfficeCount
          ([sample.north, sample.south, sample.east].filter
            (fun r => decide (described.someFieldContains ["name", "address"] "POLE" r)))
          { sample.poleFilter with Fields := none, Keyword := none } :=
  ⟨rfl, by decide, by decide, by decide,
    ((keyword_condition_of_list_and_count [sample.north, sample.south, sample.east]
      sample.poleFilter).2 ["name", "address"] "POLE" rfl (by decide) rfl (by decide)
      (by decide) (by decide) (Or.inl (by decide))).2.1⟩

/-- C11 as stated fails.  With keyword `n_r` on `name`, list and count return the row named
`North`, whose name does not contain `n_r`: the underscore is read as a wildcard.  With the
fields `name` and `colour` and keyword `north`, list and count fail on the unknown column
and return no row, although the name of the row contains the keyword.  With the fields
`name` and `address`, keyword `north` and status `deleted`, list and count return the live
row `b1`, which is not among the rows the same filter without keyword returns. -/
theorem keyword_wildcard_and_stray_column :
    repos.GetBranchOfficeList [sample.north, sample.south] sample.wildcardFilter
      = ([sample.north], none) ∧
    repos.GetBranchOfficeCount [sample.north, sample.south] sample.wildcardFilter = (1, none) ∧
    ¬ described.someFieldContains ["name"] "n_r" sample.north ∧
    repos.GetBranchOfficeList [sample.north, sample.south] sample.strayColumnFilter
      = ([], some (gorm.undefinedColumn "colour")) ∧
    repos.GetBranchOfficeCount [sample.north, sample.south] sample.strayColumnFilter
      = (0, some (gorm.undefinedColumn "colour")) ∧
    described.someFieldContains ["name", "colour"] "north" sample.north ∧
    repos.GetBranchOfficeList [sample.north, sample.east] sample.trashedNorthFilter
      = ([sample.north], none) ∧
    repos.GetBranchOfficeCount [sample.north, sample.east] sample.trashedNorthFilter
      = (1, none) ∧
    repos.GetBranchOfficeList [sample.north, sample.east]
        { sample.trashedNorthFilter with Fields := none, Keyword := none }
      = ([sample.east], none) := by
  decide

/-! ## Trash visibility of list and count -/

/-- C12 fails on the code: with status `deleted`, the fields `name` and `address` and the
keyword `rd`, list and count return the live row `b1` together with the soft-deleted row
`b3`.  The statement is sent with
`(name ILIKE ? OR address ILIKE ?) OR address ILIKE ? OR name ILIKE ? AND deleted_at is not null`,
in which a keyword match alone selects a row. -/
theorem deleted_mode_lists_live_rows :
    repos.GetBranchOfficeList [sample.north, sample.east] sample.trashedRoadFilter
      = ([sample.east, sample.north], none) ∧
    repos.GetBranchOfficeCount [sample.north, sample.east] sample.trashedRoadFilter
      = (2, none) ∧
    sample.north.DeletedAt = none ∧ sample.east.DeletedAt ≠ none ∧
    sample.trashedRoadFilter.Status = some constant.StatusDeleted := by
  decide

/-! ## Count against list -/

/-- C13: the count is the number of rows the list returns for the same filter with `Limit`
and `Page` nil (and fails exactly when that list fails, with the same error), and it does
not change when `Limit` and `Page` of the filter are replaced by any other values. -/
theorem count_is_length_of_unpaginated_list (t : Table) (filter : GetBranchOfficeListFilter) :
    (repos.GetBranchOfficeCount t filter).1
      = ((repos.GetBranchOfficeList t { filter with Limit := none, Page := none }).1.length : Int) ∧
    (repos.GetBranchOfficeCount t filter).2
      = (repos.GetBranchOfficeList t { filter with Limit := none, Page := none }).2 ∧
    (∀ limit page : Option Int,
      repos.GetBranchOfficeCount t { filter with Limit := limit, Page := page }
        = repos.GetBranchOfficeCount t filter) := by
  have hsel : ∀ limit page : Option Int,
      repos.selectRows t { filter with Limit := limit, Page := page }
        = repos.selectRows t filter := fun _ _ => rfl
  refine ⟨?_, ?_, fun limit page => ?_⟩
  · unfold repos.GetBranchOfficeCount repos.GetBranchOfficeList
    rw [hsel none none]
    cases repos.selectRows t filter with
    | error e => rfl
    | ok rows =>
      simp only [repos.orderByName]
      rw [(List.perm_insertionSort _ rows).length_eq]
  · unfold repos.GetBranchOfficeCount repos.GetBranchOfficeList
    rw [hsel none none]
    cases repos.selectRows t filter <;> rfl
  · unfold repos.GetBranchOfficeCount
    rw [hsel limit page]

/-! ## Filter normalisation in the service -/

/-- C14: the filter the service builds has `Fields = ["name"]` when the request gives no
fields, and otherwise the request's fields that are `name` or `address`, in their order; so
every field it hands to list and count is `name` or `address` (both text columns), also for
the simple listing, whose fields are `["name"]`; `Limit`, `Page` and `Status` are passed
through unchanged. -/
theorem filter_fields_are_name_or_address (u : util.Settings)
    (req : dto.GetBranchOfficeRequest) :
    (req.Fields = none → (services.convertToBranchOfficeListFilter u req).Fields = some ["name"]) ∧
    (∀ fs, req.Fields = some fs →
      (services.convertToBranchOfficeListFilter u req).Fields
        = some (fs.filter (fun f => decide (f = "name" ∨ f = "address")))) ∧
    (∀ fs, (services.convertToBranchOfficeListFilter u req).Fields = some fs →
      ∀ f ∈ fs, (f = "name" ∨ f = "address") ∧ (gorm.column f).isSome = true) ∧
    (∀ sreq : dto.GetSimpleBranchOfficeRequest,
      (services.simpleFilter u sreq).Fields = some ["name"]) ∧
    (services.convertToBranchOfficeListFilter u req).Limit = req.Limit ∧
    (services.convertToBranchOfficeListFilter u req).Page = req.Page ∧
    (services.convertToBranchOfficeListFilter u req).Status = req.Status := by
  have hclear : ∀ fs : List String, util.ClearInvalidFields fs ["name", "address"]
      = fs.filter (fun f => decide (f = "name" ∨ f = "address")) := by
    intro fs
    unfold util.ClearInvalidFields
    apply List.filter_congr
    intro f _
    simp
  have hcol : ∀ f : String, f = "name" ∨ f = "address" → (gorm.column f).isSome = true := by
    rintro f (rfl | rfl) <;> decide
  refine ⟨?_, ?_, ?_, fun _ => rfl, rfl, rfl, rfl⟩
  · intro h
    simp [services.convertToBranchOfficeListFilter, h]
  · intro fs h
    simp only [services.convertToBranchOfficeListFilter, h, hclear]
  · intro fs h f hf
    cases hreq : req.Fields with
    | none =>
      simp only [services.convertToBranchOfficeListFilter, hreq, Option.some.injEq] at h
      subst h
      simp only [List.mem_singleton] at hf
      exact ⟨Or.inl hf, hcol f (Or.inl hf)⟩
    | some gs =>
      simp only [services.convertToBranchOfficeListFilter, hreq, hclear,
        Option.some.injEq] at h
      subst h
      have := (List.mem_filter.1 hf).2
      simp only [decide_eq_true_eq] at this
      exact ⟨this, hcol f this⟩

/-! ## The list validator -/

/-- The list validator on a bound request: the request with page and limit defaulted, and
never an error. -/
theorem validateGet_ok (u : util.Settings) (req : dto.GetBranchOfficeRequest) :
    validators.ValidateGetBranchOfficeRequest u (.ok req) =
      (some { req with Page := some (req.Page.getD u.PaginationPage),
                       Limit := some (req.Limit.getD u.PaginationLimit) }, none) := by
  obtain ⟨fields, keyword, limit, page, status⟩ := req
  cases page <;> cases limit <;> rfl

/-- C15 fails on the code: for the status `archived` the allow-list check rejects the
status, but the validator does not use what the check returns; it returns the request (with
page and limit defaulted) and no error, and the list handler answers 200 with the rows that
are not soft-deleted. -/
theorem validateGet_keeps_disallowed_status :
    util.EnsureStatusAllowed sample.archivedQuery.Status [constant.StatusDeleted] ≠ none ∧
    validators.ValidateGetBranchOfficeRequest sample.settings (.ok sample.archivedQuery)
      = (some { sample.archivedQuery with Page := some 1, Limit := some 10 }, none) ∧
    (controllers.GetBranchOffices sample.settings (repos.branchOfficeRepo sample.noon)
        [sample.north, sample.east] (.ok sample.archivedQuery)).map (fun r => (r.status, r.data))
      = some (controllers.StatusOK, [sample.north.ToDtoResponse]) := by
  decide

/-! ## The existence precondition of the handlers -/

/-- The existence check over the table: some row with the id is in scope. -/
theorem existsById_any (now : Time) (t : Table) (id : String) (withTrash : Bool) :
    services.ExistsBranchOfficeById (repos.branchOfficeRepo now) t id withTrash
      = (t.any (fun r => r.Id == id && gorm.visible withTrash r), none) := by
  rcases First_cases (t.filter (fun r => r.Id == id && gorm.visible withTrash r)) with
    ⟨hnil, hres⟩ | ⟨m, hm, hres⟩
  · have hany : t.any (fun r => r.Id == id && gorm.visible withTrash r) = false := by
      rw [List.any_eq_false]
      intro x hx
      have := (List.filter_eq_nil_iff.1 hnil) x hx
      simpa using this
    rw [hany]
    exact existsById_of_notFound hres
  · have hany : t.any (fun r => r.Id == id && gorm.visible withTrash r) = true := by
      rw [List.any_eq_true]
      exact ⟨m, (List.mem_filter.1 hm).1, (List.mem_filter.1 hm).2⟩
    rw [hany]
    exact existsById_of_found hres

theorem any_live_iff (t : Table) (id : String) :
    t.any (fun r => r.Id == id && gorm.visible false r) = true
      ↔ ∃ x ∈ t, x.Id = id ∧ x.DeletedAt = none := by
  simp [List.any_eq_true, gorm.visible]

theorem any_row_iff (t : Table) (id : String) :
    t.any (fun r => r.Id == id && gorm.visible true r) = true ↔ ∃ x ∈ t, x.Id = id := by
  simp [List.any_eq_true, gorm.visible]

theorem update_route_status (now : Time) (t : Table) (id : String)
    (bound : Except GoError dto.UpdateBranchOfficeRequest) :
    ((controllers.UpdateBranchOffice (repos.branchOfficeRepo now) t id bound).1.status
        = controllers.StatusNotFound ↔ ¬ ∃ x ∈ t, x.Id = id ∧ x.DeletedAt = none) ∧
    ((¬ ∃ x ∈ t, x.Id = id ∧ x.DeletedAt = none) →
      controllers.UpdateBranchOffice (repos.branchOfficeRepo now) t id bound
        = ({ status := controllers.StatusNotFound, data := none }, t)) := by
  unfold controllers.UpdateBranchOffice
  rw [existsById_any, ← any_live_iff]
  cases hany : t.any (fun r => r.Id == id && gorm.visible false r) with
  | false => simp [controllers.HandleErrorResponse]
  | true =>
    simp only [Bool.not_eq_true, Bool.true_eq_false, false_implies, and_true, not_true_eq_false,
      iff_false]
    cases bound with
    | error e =>
      simp [validators.ValidateUpdateBranchOfficeRequest, controllers.HandleErrorResponse,
        controllers.StatusUnprocessableEntity, controllers.StatusNotFound]
    | ok req =>
      simp only [validators.ValidateUpdateBranchOfficeRequest]
      rcases services.UpdateBranchOfficeById (repos.branchOfficeRepo now) t id req with
        ⟨⟨res, err⟩, s1⟩
      cases err <;> cases res <;>
        simp [controllers.HandleErrorResponse, controllers.StatusInternalServerError,
          controllers.StatusNotFound, controllers.StatusOK]

theorem softDelete_route_status (now : Time) (t : Table) (id : String) :
    ((controllers.SoftDeleteBranchOffice (repos.branchOfficeRepo now) t id).1.status
        = controllers.StatusNotFound ↔ ¬ ∃ x ∈ t, x.Id = id ∧ x.DeletedAt = none) ∧
    ((¬ ∃ x ∈ t, x.Id = id ∧ x.DeletedAt = none) →
      controllers.SoftDeleteBranchOffice (repos.branchOfficeRepo now) t id
        = ({ status := controllers.StatusNotFound, data := none }, t)) := by
  unfold controllers.SoftDeleteBranchOffice
  rw [existsById_any, ← any_live_iff]
  cases hany : t.any (fun r => r.Id == id && gorm.visible false r) with
  | false => simp [controllers.HandleErrorResponse]
  | true =>
    simp only [Bool.not_eq_true, Bool.true_eq_false, false_implies, and_true, not_true_eq_false,
      iff_false]
    rcases services.SoftDeleteBranchOfficeById (repos.branchOfficeRepo now) t id with
      ⟨err, s1⟩
    cases err <;>
      simp [controllers.HandleErrorResponse, controllers.StatusInternalServerError,
        controllers.StatusNotFound, controllers.StatusOK]

theorem hardDelete_route_status (now : Time) (t : Table) (id : String) :
    ((controllers.HardDeleteBranchOffice (repos.branchOfficeRepo now) t id).1.status
        = controllers.StatusNotFound ↔ ¬ ∃ x ∈ t, x.Id = id) ∧
    ((∃ x ∈ t, x.Id = id) →
      (controllers.HardDeleteBranchOffice (repos.branchOfficeRepo now) t id).2
        = (services.HardDeleteBranchOfficeById (repos.branchOfficeRepo now) t id).2 ∧
      (id ≠ "" → controllers.HardDeleteBranchOffice (repos.branchOfficeRepo now) t id
        = ({ status := controllers.StatusOK, data := none }, t.filter (fun r => r.Id != id)))) := by
  unfold controllers.HardDeleteBranchOffice
  rw [existsById_any, ← any_row_iff]
  cases hany : t.any (fun r => r.Id == id && gorm.visible true r) with
  | false => simp [controllers.HandleErrorResponse]
  | true =>
    simp only [Bool.not_eq_true, Bool.true_eq_false, not_true_eq_false, iff_false,
      true_implies]
    refine ⟨?_, ?_, ?_⟩
    · rcases services.HardDeleteBranchOfficeById (repos.branchOfficeRepo now) t id with
        ⟨err, s1⟩
      cases err <;>
        simp [controllers.HandleErrorResponse, controllers.StatusInternalServerError,
          controllers.StatusNotFound, controllers.StatusOK]
    · rcases services.HardDeleteBranchOfficeById (repos.branchOfficeRepo now) t id with
        ⟨err, s1⟩
      cases err <;> rfl
    · intro hid
      rw [hardDelete_table hid]

theorem restore_route_status (now : Time) (t : Table) (id : String) :
    ((controllers.RestoreBranchOffice (repos.branchOfficeRepo now) t id).1.status
        = controllers.StatusNotFound ↔ ¬ ∃ x ∈ t, x.Id = id) ∧
    ((∃ x ∈ t, x.Id = id) →
      controllers.RestoreBranchOffice (repos.branchOfficeRepo now) t id
        = ({ status := controllers.StatusOK, data := none },
            t.map (fun r => if r.Id == id then { r with DeletedAt := none } else r))) := by
  unfold controllers.RestoreBranchOffice
  rw [existsById_any, ← any_row_iff]
  cases hany : t.any (fun r => r.Id == id && gorm.visible true r) with
  | false => simp [controllers.HandleErrorResponse]
  | true =>
    simp only [Bool.not_eq_true, Bool.true_eq_false, not_true_eq_false, iff_false,
      true_implies, restore_table]
    simp [controllers.StatusNotFound, controllers.StatusOK]

/-- C16: when no record with the id is live (none at all, or only a soft-deleted one), the
Update and Soft-delete handlers answer 404 and leave the table as it is; the Hard-delete and
Restore handlers answer 404 exactly when the table holds no record with the id, and for a
soft-deleted record they go on to the mutation: Restore answers 200 and clears `deletedAt`,
Hard-delete leaves the table its service call leaves, which for a non-empty id is the table
without the record, answered with 200. -/
theorem existence_precondition_of_handlers (now : Time) (t : Table) (id : String)
    (bound : Except GoError dto.UpdateBranchOfficeRequest) :
    ((¬ ∃ x ∈ t, x.Id = id ∧ x.DeletedAt = none) →
      controllers.UpdateBranchOffice (repos.branchOfficeRepo now) t id bound
        = ({ status := controllers.StatusNotFound, data := none }, t) ∧
      controllers.SoftDeleteBranchOffice (repos.branchOfficeRepo now) t id
        = ({ status := controllers.StatusNotFound, data := none }, t)) ∧
    ((controllers.HardDeleteBranchOffice (repos.branchOfficeRepo now) t id).1.status
        = controllers.StatusNotFound ↔ ¬ ∃ x ∈ t, x.Id = id) ∧
    ((controllers.RestoreBranchOffice (repos.branchOfficeRepo now) t id).1.status
        = controllers.StatusNotFound ↔ ¬ ∃ x ∈ t, x.Id = id) ∧
    (∀ x ∈ t, x.Id = id → x.DeletedAt ≠ none →
      controllers.RestoreBranchOffice (repos.branchOfficeRepo now) t id
        = ({ status := controllers.StatusOK, data := none },
            t.map (fun r => if r.Id == id then { r with DeletedAt := none } else r)) ∧
      (controllers.HardDeleteBranchOffice (repos.branchOfficeRepo now) t id).2
        = (services.HardDeleteBranchOfficeById (repos.branchOfficeRepo now) t id).2 ∧
      (id ≠ "" → controllers.HardDeleteBranchOffice (repos.branchOfficeRepo now) t id
        = ({ status := controllers.StatusOK, data := none },
            t.filter (fun r => r.Id != id)))) := by
  refine ⟨fun h => ⟨(update_route_status now t id bound).2 h,
      (softDelete_route_status now t id).2 h⟩,
    (hardDelete_route_status now t id).1, (restore_route_status now t id).1, ?_⟩
  intro x hx hxi _
  have hex : ∃ y ∈ t, y.Id = id := ⟨x, hx, hxi⟩
  exact ⟨(restore_route_status now t id).2 hex,
    ((hardDelete_route_status now t id).2 hex).1,
    ((hardDelete_route_status now t id).2 hex).2⟩

/-! ## Nil pointers on the list route -/

/-- The dereference the claim is about: on a request without limit, a successful count is
followed by the dereference of a nil pointer. -/
theorem getTotalRowsAndPages_nil_limit {σ : Type} (u : util.Settings)
    (repo : BranchOfficeRepoInterface σ) (s : σ) (req : dto.GetBranchOfficeRequest)
    (hl : req.Limit = none)
    (hc : (repo.GetBranchOfficeCount s (services.convertToBranchOfficeListFilter u req)).2 = none) :
    services.GetTotalRowsAndPages u repo s req = none := by
  unfold services.GetTotalRowsAndPages
  rcases h : repo.GetBranchOfficeCount s (services.convertToBranchOfficeListFilter u req) with
    ⟨n, e⟩
  rw [h] at hc
  simp only at hc
  subst hc
  simp [hl]

/-- C17: whenever the list validator succeeds, the request it returns has non-nil `Page`
and `Limit` (a supplied value is kept, an absent one is the default constant), so for every
repository the dereference of `req.Limit` in `GetTotalRowsAndPages` and the dereferences of
`req.Limit` and `req.Page` in the list handler never meet a nil pointer. -/
theorem list_route_never_dereferences_nil (u : util.Settings)
    (bound : Except GoError dto.GetBranchOfficeRequest) (req1 : dto.GetBranchOfficeRequest)
    (h : validators.ValidateGetBranchOfficeRequest u bound = (some req1, none)) :
    (∃ page, req1.Page = some page) ∧ (∃ limit, req1.Limit = some limit) ∧
    (∀ req, bound = .ok req →
      req1.Page = some (req.Page.getD u.PaginationPage) ∧
      req1.Limit = some (req.Limit.getD u.PaginationLimit) ∧
      req1.Fields = req.Fields ∧ req1.Keyword = req.Keyword ∧ req1.Status = req.Status) ∧
    (∀ (σ : Type) (repo : BranchOfficeRepoInterface σ) (s : σ),
      (services.GetTotalRowsAndPages u repo s req1).isSome = true ∧
      (controllers.GetBranchOffices u repo s bound).isSome = true) := by
  cases bound with
  | error e => simp [validators.ValidateGetBranchOfficeRequest] at h
  | ok req =>
    rw [validateGet_ok] at h
    simp only [Prod.mk.injEq, Option.some.injEq, and_true] at h
    subst h
    refine ⟨⟨_, rfl⟩, ⟨_, rfl⟩, ?_, ?_⟩
    · intro r hr
      cases hr
      exact ⟨rfl, rfl, rfl, rfl, rfl⟩
    · intro σ repo s
      have htot : (services.GetTotalRowsAndPages u repo s
          { req with Page := some (req.Page.getD u.PaginationPage),
                     Limit := some (req.Limit.getD u.PaginationLimit) }).isSome = true := by
        unfold services.GetTotalRowsAndPages
        rcases repo.GetBranchOfficeCount s _ with ⟨n, e⟩
        cases e <;> rfl
      refine ⟨htot, ?_⟩
      unfold controllers.GetBranchOffices
      rw [validateGet_ok]
      simp only
      rcases hg : services.GetTotalRowsAndPages u repo s
          { req with Page := some (req.Page.getD u.PaginationPage),
                     Limit := some (req.Limit.getD u.PaginationLimit) } with _ | ⟨rows, pages, e⟩
      · rw [hg] at htot
        cases htot
      · cases e with
        | some err => rfl
        | none =>
          simp only
          rcases services.GetBranchOfficeList u repo s
            { req with Page := some (req.Page.getD u.PaginationPage),
                       Limit := some (req.Limit.getD u.PaginationLimit) } with ⟨data, e2⟩
          cases e2 <;> rfl

/-- Witness for C17: a request that sets the page and not the limit. -/
theorem list_route_never_dereferences_nil_witness :
    validators.ValidateGetBranchOfficeRequest sample.settings (.ok sample.pagedQuery)
      = (some { sample.pagedQuery with Limit := some 10 }, none) ∧
    (services.GetTotalRowsAndPages sample.settings (repos.branchOfficeRepo sample.noon)
        [sample.north, sample.east] { sample.pagedQuery with Limit := some 10 }).isSome = true ∧
    services.GetTotalRowsAndPages sample.settings (repos.branchOfficeRepo sample.noon)
        [sample.north, sample.east] sample.pagedQuery = none :=
  ⟨by decide,
    ((list_route_never_dereferences_nil sample.settings (.ok sample.pagedQuery)
      { sample.pagedQuery with Limit := some 10 } (by decide)).2.2.2 Table
      (repos.branchOfficeRepo sample.noon) [sample.north, sample.east]).1,
    by decide⟩

end TwinBranchOffice
